import Mathlib

/-!
Verification development for the ip_tools repository.

This file gives a shallow embedding, in Lean 4, of the parsing core of the
repository: the regex-based USPTO publications claim parser
(src/ip_tools/uspto_publications/utils.py), the date coercion helpers
(src/ip_tools/uspto_publications/transformers.py), the EPO OPS response
assembly and CPC retrieval parser (src/ip_tools/epo_ops/parsing.py), and the
Google Patents claim extraction helpers
(src/ip_tools/google_patents/parsers/claims.py).

Python strings are modeled as List Char (ASCII fragment of the Python
semantics: the whitespace class and the digit class are modeled over ASCII,
which covers every string the repository feeds to these helpers).  Python
regular expressions are modeled by direct scanners that implement, for the
specific patterns appearing in the source, the leftmost-match and
greedy-with-backtracking semantics of the re module.  Python exceptions are
modeled with Except.
-/

namespace IpTools

/-! ## Python string primitives -/

/-- Model of the Python regex class backslash-s over ASCII. -/
def pySpace (c : Char) : Bool :=
  c = ' ' || c = '\t' || c = '\n' || c = '\r' || c = '\x0b' || c = '\x0c'

/-- Model of the Python str.strip method (ASCII whitespace). -/
def pyStrip (s : List Char) : List Char :=
  ((s.dropWhile pySpace).reverse.dropWhile pySpace).reverse

/-- Helper for collapseWs: the flag records whether the previous kept
character position was inside a whitespace run. -/
def collapseWsAux : List Char → Bool → List Char
  | [], _ => []
  | c :: rest, prevSpace =>
    if pySpace c then
      if prevSpace then collapseWsAux rest true
      else ' ' :: collapseWsAux rest true
    else c :: collapseWsAux rest false

/-- Model of WHITESPACE_RE.sub with a single space: every maximal whitespace
run is replaced by one space character. -/
def collapseWs (s : List Char) : List Char := collapseWsAux s false

/-- Model of the helper clean_text in uspto_publications/utils.py:
collapse whitespace runs, then strip. -/
def cleanText (s : List Char) : List Char := pyStrip (collapseWs s)

/-- Numeric value of a list of decimal digits, most significant first. -/
def digitsVal (ds : List Char) : Nat :=
  ds.foldl (fun a c => a * 10 + (c.toNat - '0'.toNat)) 0

/-- Helper for pyIntCore: consume the remaining digits, allowing single
underscores between digits as Python int parsing does. -/
def pyIntGo : List Char → List Char → Option (List Char)
  | [], acc => some acc.reverse
  | '_' :: d :: rest, acc =>
    if d.isDigit then pyIntGo rest (d :: acc) else none
  | d :: rest, acc =>
    if d.isDigit then pyIntGo rest (d :: acc) else none

/-- Digit-sequence part of the Python int constructor on strings: at least
one digit, single underscores allowed between digits.  Returns the digit
characters with underscores removed. -/
def pyIntCore : List Char → Option (List Char)
  | [] => none
  | c :: rest => if c.isDigit then pyIntGo rest [c] else none

/-- Model of the Python int constructor applied to a string (ASCII digits):
optional surrounding whitespace, an optional sign, then digits with
optional single underscores between them.  Returns none where Python raises
ValueError. -/
def pyInt (s : List Char) : Option Int :=
  let t := pyStrip s
  match t with
  | '+' :: rest => (pyIntCore rest).map (fun ds => (digitsVal ds : Int))
  | '-' :: rest => (pyIntCore rest).map (fun ds => -(digitsVal ds : Int))
  | _ => (pyIntCore t).map (fun ds => (digitsVal ds : Int))

/-- Decidable equality for the Except values of the embedded fallible
functions, used to evaluate them at concrete inputs. -/
instance {e a : Type} [DecidableEq e] [DecidableEq a] :
    DecidableEq (Except e a) := fun x y =>
  match x, y with
  | .ok u, .ok v =>
    if h : u = v then .isTrue (by rw [h])
    else .isFalse (fun hc => h (Except.ok.inj hc))
  | .error u, .error v =>
    if h : u = v then .isTrue (by rw [h])
    else .isFalse (fun hc => h (Except.error.inj hc))
  | .ok _, .error _ => .isFalse (fun hc => Except.noConfusion hc)
  | .error _, .ok _ => .isFalse (fun hc => Except.noConfusion hc)

/-! ## Regex scanners for uspto_publications/utils.py

SPLIT_RE is the multiline pattern matching a claim-number marker at a line
start.  Its three alternatives are, in order: a run of digits, hyphens and
periods followed by a closing parenthesis or period; the amendment marker
.Iadd. followed by such a run and a period; and a period, opening bracket,
run, period form.  The pattern is anchored with MULTILINE, so a match can
start only at the beginning of the string or right after a newline, and it
may consume leading whitespace before the captured marker. -/

/-- Character class of the SPLIT_RE marker body: digits, hyphen, period. -/
def splitCls (c : Char) : Bool := c.isDigit || c = '-' || c = '.'

/-- Largest index k with 1 ≤ k < bound whose character in s is a period.
This realizes the greedy backtracking of the plus quantifier over splitCls
followed by a literal period: the engine gives back characters from the
maximal run until the next character is the required period. -/
def lastDotBefore (s : List Char) : Nat → Option Nat
  | 0 => none
  | k + 1 =>
    if 1 ≤ k ∧ s.get? k = some '.' then some k
    else lastDotBefore s k

/-- First SPLIT_RE alternative: splitCls run (at least one) then a closing
parenthesis or a period.  Greedy: the whole maximal run plus a following
parenthesis is preferred; otherwise the run is shortened so that its next
character is a period.  Returns the matched marker and the rest. -/
def splitAlt1 (s : List Char) : Option (List Char × List Char) :=
  let L := (s.takeWhile splitCls).length
  if L = 0 then none
  else
    match s.get? L with
    | some ')' => some (s.take (L + 1), s.drop (L + 1))
    | _ =>
      match lastDotBefore s L with
      | some k => some (s.take (k + 1), s.drop (k + 1))
      | none => none

/-- Second SPLIT_RE alternative: the literal marker .Iadd. then a splitCls
run (at least one) then a period. -/
def splitAlt2 (s : List Char) : Option (List Char × List Char) :=
  if s.take 6 = ".Iadd.".data then
    let t := s.drop 6
    let L := (t.takeWhile splitCls).length
    match lastDotBefore t L with
    | some k => some (s.take (6 + k + 1), t.drop (k + 1))
    | none => none
  else none

/-- Third SPLIT_RE alternative: a period and opening bracket, then a
splitCls run (at least one) then a period. -/
def splitAlt3 (s : List Char) : Option (List Char × List Char) :=
  if s.take 2 = ".[".data then
    let t := s.drop 2
    let L := (t.takeWhile splitCls).length
    match lastDotBefore t L with
    | some k => some (s.take (2 + k + 1), t.drop (k + 1))
    | none => none
  else none

/-- Alternation of the three SPLIT_RE marker forms, in pattern order. -/
def matchMarker (s : List Char) : Option (List Char × List Char) :=
  match splitAlt1 s with
  | some r => some r
  | none =>
    match splitAlt2 s with
    | some r => some r
    | none => splitAlt3 s

/-- Attempt the full SPLIT_RE pattern at a position known to be a line
start: consume leading whitespace greedily (the marker alternatives cannot
start with whitespace, so maximal munch agrees with backtracking), then a
marker.  Returns the captured marker and the rest after the match. -/
def matchSplitAt (s : List Char) : Option (List Char × List Char) :=
  matchMarker (s.dropWhile pySpace)

/-- Scanner realizing re.split with SPLIT_RE: walks the string, trying the
pattern at every line-start position, and returns the segments between
matches interleaved with the captured markers, exactly as re.split returns
them.  The fuel argument bounds recursion; reSplitMarkers supplies enough
fuel for the whole string. -/
def splitScan : Nat → List Char → Bool → List Char → List (List Char)
  | 0, s, _, acc => [acc.reverse ++ s]
  | fuel + 1, s, lineStart, acc =>
    match s with
    | [] => [acc.reverse]
    | c :: rest =>
      if lineStart then
        match matchSplitAt s with
        | some (tok, rest2) => acc.reverse :: tok :: splitScan fuel rest2 false []
        | none => splitScan fuel rest (c = '\n') (c :: acc)
      else splitScan fuel rest (c = '\n') (c :: acc)

/-- Model of SPLIT_RE.split applied to a string. -/
def reSplitMarkers (s : List Char) : List (List Char) :=
  splitScan (s.length + 1) s true []

/-- Model of CLAIM_INTRO_RE.sub with the empty string: the pattern is
anchored at the string start without MULTILINE, so the substitution removes
exactly the maximal leading run of characters that are not digits, periods
or opening brackets. -/
def claimIntroStrip (s : List Char) : List Char :=
  s.dropWhile (fun c => !(c.isDigit || c = '.' || c = '['))

/-- Model of zip_longest grouping into pairs with fill None, as used by the
grouper helper with n equal to two. -/
def pairUp {α : Type} : List α → List (α × Option α)
  | [] => []
  | [a] => [(a, none)]
  | a :: b :: rest => (a, some b) :: pairUp rest

mutual

/-- Helper for splitNonDigits: currently inside a digit segment. -/
def splitNonDigitsGo : List Char → List Char → List (List Char)
  | [], acc => [acc.reverse]
  | c :: rest, acc =>
    if c.isDigit then splitNonDigitsGo rest (c :: acc)
    else acc.reverse :: splitNonDigitsSkip rest

/-- Helper for splitNonDigits: currently inside a non-digit separator run. -/
def splitNonDigitsSkip : List Char → List (List Char)
  | [] => [[]]
  | c :: rest =>
    if c.isDigit then splitNonDigitsGo rest [c] else splitNonDigitsSkip rest

end

/-- Model of re.split on the pattern of one-or-more non-digits: the digit
segments of the string, with an empty segment at either end when the string
starts or ends with a non-digit, and a single empty segment for the empty
string. -/
def splitNonDigits (s : List Char) : List (List Char) :=
  match s with
  | [] => [[]]
  | c :: rest =>
    if c.isDigit then splitNonDigitsGo rest [c] else [] :: splitNonDigitsSkip rest

/-! ## ClaimsParser -/

/-- Character for one decimal digit value. -/
def digitChar (d : Nat) : Char := Char.ofNat ('0'.toNat + d)

/-- Helper for natRender: the decimal digits of n, least significant
first; the fuel (seeded with n itself, which bounds the digit count)
makes the recursion structural. -/
def natDigitsAux : Nat → Nat → List Char
  | 0, _ => []
  | fuel + 1, n =>
    if n = 0 then [] else digitChar (n % 10) :: natDigitsAux fuel (n / 10)

/-- Decimal rendering of a natural number, most significant digit first,
no leading zeros: the Python str of an int. -/
def natRender (n : Nat) : List Char :=
  if n = 0 then ['0'] else (natDigitsAux n n).reverse

/-- Rendering of the Python f-string that builds one expanded range entry:
the claim number, a period, a space, and the body. -/
def renderEntry (n : Nat) (body : List Char) : List Char :=
  natRender n ++ '.' :: ' ' :: body

/-- Rendering of the pair body argument inside the f-string: Python renders
the fill value None as the four letter word None. -/
def bodyStr : Option (List Char) → List Char
  | some b => b
  | none => "None".data

/-- Model of the space-join over the truthy elements of the pair, used on
the non-range branch of split_and_clean_claims. -/
def joinNumBody (tok : List Char) (body : Option (List Char)) : List Char :=
  let parts :=
    (if tok = [] then [] else [tok]) ++
      (match body with
       | some b => if b = [] then [] else [b]
       | none => [])
  (List.intersperse " ".data parts).flatten

/-- Model of the per-pair body of the loop in split_and_clean_claims: a
marker containing a hyphen is treated as a range (periods removed, the
first two digit segments parsed as the bounds, one entry per integer in the
inclusive range); any other marker is joined with its body.  The error case
models the ValueError raised by the int constructor on an empty segment. -/
def expandPair (tok : List Char) (body : Option (List Char)) :
    Except Unit (List (List Char)) :=
  if tok.contains '-' then
    let cleaned := tok.filter (fun c => c ≠ '.')
    match splitNonDigits cleaned with
    | st :: en :: _ =>
      match pyInt st, pyInt en with
      | some a, some b =>
        Except.ok
          ((List.range' a.toNat (b.toNat + 1 - a.toNat)).map
            (fun n => renderEntry n (bodyStr body)))
      | _, _ => Except.error ()
    | _ => Except.error ()
  else Except.ok [joinNumBody tok body]

/-- Model of ClaimsParser method split_and_clean_claims. -/
def splitAndCleanClaims (claimText : List Char) :
    Except Unit (List (List Char)) :=
  let cleaned := claimIntroStrip claimText
  let strs := (reSplitMarkers cleaned).map pyStrip
  let strs := strs.dropWhile (fun cs => !(cs.any Char.isDigit))
  (pairUp strs).foldlM
    (fun acc p => do
      let e ← expandPair p.1 p.2
      pure (acc ++ e))
    []

/-- Attempt of NUMBER_RE at one position: a maximal digit run (at least one
digit), a closing parenthesis or period, then at least one whitespace
character taken greedily.  Shortening the digit run cannot help the match,
because the character it would expose is a digit, so maximal munch agrees
with backtracking. -/
def numberMatchAt (s : List Char) : Option (List Char × List Char) :=
  let run := s.takeWhile Char.isDigit
  if run = [] then none
  else
    match s.drop run.length with
    | c :: after =>
      if c = ')' || c = '.' then
        let ws := after.takeWhile pySpace
        if ws = [] then none
        else some (run ++ c :: ws, after.drop ws.length)
      else none
    | [] => none

/-- Helper scanning for the leftmost NUMBER_RE match; accumulates the text
before the match. -/
def searchNumberAux : List Char → List Char →
    Option (List Char × List Char × List Char)
  | [], _ => none
  | c :: rest, acc =>
    match numberMatchAt (c :: rest) with
    | some (m, after) => some (acc.reverse, m, after)
    | none => searchNumberAux rest (c :: acc)

/-- Model of NUMBER_RE.search: returns the text before the match, the
matched text, and the text after the match. -/
def searchNumber (s : List Char) :
    Option (List Char × List Char × List Char) :=
  searchNumberAux s []

/-- Attempt of LIMITATION_RE at one position: optional whitespace, a colon
or semicolon, optional whitespace, and optionally the caseless word and
(first alternative of the pattern, preferred when present). -/
def limMatchAt (s : List Char) : Option (List Char × List Char) :=
  let w1 := s.takeWhile pySpace
  match s.drop w1.length with
  | c :: rest =>
    if c = ':' || c = ';' then
      let w2 := rest.takeWhile pySpace
      let rest2 := rest.drop w2.length
      if (rest2.take 3).map Char.toLower = "and".data then
        some (w1 ++ c :: (w2 ++ rest2.take 3), rest2.drop 3)
      else some (w1 ++ c :: w2, rest2)
    else none
  | [] => none

/-- Scanner realizing re.split with LIMITATION_RE, keeping the captured
separators, exactly as re.split does for a pattern consisting of one
capture group. -/
def limScan : Nat → List Char → List Char → List (List Char)
  | 0, s, acc => [acc.reverse ++ s]
  | fuel + 1, s, acc =>
    match s with
    | [] => [acc.reverse]
    | c :: rest =>
      match limMatchAt s with
      | some (sep, after) => acc.reverse :: sep :: limScan fuel after []
      | none => limScan fuel rest (c :: acc)

/-- Model of LIMITATION_RE.split applied to a string. -/
def limSplit (s : List Char) : List (List Char) :=
  limScan (s.length + 1) s []

/-- Model of zip_longest grouping into pairs with the empty string as fill
value, as used on the limitation chunks. -/
def grouper2Fill : List (List Char) → List (List Char × List Char)
  | [] => []
  | [a] => [(a, [])]
  | a :: b :: rest => (a, b) :: grouper2Fill rest

/-- Character class of the DEPENDENCY_RE capture: digits, comma, the
letters o and r in either case (the pattern is caseless), and space. -/
def depCls (c : Char) : Bool :=
  c.isDigit || c = ',' || c = 'o' || c = 'r' || c = 'O' || c = 'R' || c = ' '

/-- Attempt of DEPENDENCY_RE at one position: the caseless word claim, an
optional letter s, a space, then a non-empty run of depCls characters,
captured.  When the optional s is present the space must follow it; the
no-s reading then requires a space where the s stands, so it cannot
succeed, and conversely. -/
def depMatchAt (s : List Char) : Option (List Char) :=
  if (s.take 5).map Char.toLower = "claim".data then
    match s.drop 5 with
    | 's' :: ' ' :: u =>
      let run := u.takeWhile depCls
      if run = [] then none else some run
    | 'S' :: ' ' :: u =>
      let run := u.takeWhile depCls
      if run = [] then none else some run
    | ' ' :: u =>
      let run := u.takeWhile depCls
      if run = [] then none else some run
    | _ => none
  else none

/-- Model of DEPENDENCY_RE.search: leftmost position where depMatchAt
succeeds; returns the captured number list text. -/
def searchDep : List Char → Option (List Char)
  | [] => none
  | c :: rest =>
    match depMatchAt (c :: rest) with
    | some r => some r
    | none => searchDep rest

mutual

/-- Helper for digitRuns: currently inside a digit run. -/
def digitRunsGo : List Char → List Char → List Nat
  | [], acc => [digitsVal acc.reverse]
  | c :: rest, acc =>
    if c.isDigit then digitRunsGo rest (c :: acc)
    else digitsVal acc.reverse :: digitRunsSkip rest

/-- Helper for digitRuns: currently outside any digit run. -/
def digitRunsSkip : List Char → List Nat
  | [] => []
  | c :: rest =>
    if c.isDigit then digitRunsGo rest [c] else digitRunsSkip rest

end

/-- Model of the finditer loop over DEPENDENT_CLAIMS_RE followed by the int
constructor: the pattern matches each maximal digit run (the run, greedy,
must be followed by a non-digit or the end), so the loop yields the values
of the maximal digit runs in order. -/
def digitRuns (s : List Char) : List Nat := digitRunsSkip s

/-- Helper testing whether the pattern is a caseless prefix here. -/
def caselessHasPre (pat s : List Char) : Bool :=
  (s.take pat.length).map Char.toLower = pat

/-- Caseless substring search, with the pattern given lowercase. -/
def containsCaseless (pat : List Char) : List Char → Bool
  | [] => decide (pat = [])
  | c :: rest => caselessHasPre pat (c :: rest) || containsCaseless pat rest

/-- Model of DEPEND_ALL_RE.search viewed as a Boolean test. -/
def dependAllSearch (s : List Char) : Bool :=
  containsCaseless "any of the foregoing claims".data s ||
    containsCaseless "any of the previous claims".data s

/-- Model of ClaimsParser method parse_dependency. -/
def parseDependency (text : List Char) (number : Nat) : List Nat :=
  match searchDep text with
  | some cap => digitRuns cap
  | none =>
    if dependAllSearch text then List.range' 1 (number - 1) else []

/-- Claim record shape produced by the parser: claim number, limitation
texts, forward dependencies, and the derived inverse index. -/
structure ClaimRec where
  number : Nat
  limitations : List (List Char)
  dependsOn : List Nat
  dependentClaims : List Nat
deriving Repr, DecidableEq

/-- Model of ClaimsParser method parse_claim_string. -/
def parseClaimString (text : List Char) : ClaimRec :=
  match searchNumber text with
  | none => ⟨0, [cleanText text], [], []⟩
  | some (pre, m, rest) =>
    let number := digitsVal (m.takeWhile Char.isDigit)
    let remainder := pre ++ rest
    let lims :=
      (grouper2Fill (limSplit remainder)).map (fun p => cleanText (p.1 ++ p.2))
    ⟨number, lims.filter (fun l => l ≠ []), parseDependency remainder number, []⟩

/-- For the claim at one position, the list of appends the inverse-index
loop performs on the record holding number p: for each claim in order, one
append of its number per occurrence of p in its dependency list. -/
def inverseFor (data : List ClaimRec) (p : Nat) : List Nat :=
  (data.map (fun c =>
    (c.dependsOn.filter (fun d => d = p)).map (fun _ => c.number))).flatten

/-- Helper for applyDependents, walking the record list while remembering
the full list: a record receives the appends targeted at its number exactly
when no later record carries the same number, because the dictionary
comprehension keeps the last record for each number. -/
def applyDependentsAux (all : List ClaimRec) : List ClaimRec → List ClaimRec
  | [] => []
  | c :: rest =>
    (if rest.all (fun c2 => c2.number ≠ c.number) then
       { c with dependentClaims := inverseFor all c.number }
     else c) :: applyDependentsAux all rest

/-- Model of the inverse-index loop of ClaimsParser method parse: the
dictionary comprehension keeps, for each number, the last record carrying
it, and the loop appends to those shared records. -/
def applyDependents (data : List ClaimRec) : List ClaimRec :=
  applyDependentsAux data data

/-- Model of ClaimsParser method parse on a string (the None input maps to
the empty list exactly as the empty string does). -/
def claimsParse (claimText : List Char) : Except Unit (List ClaimRec) :=
  if claimText = [] then Except.ok []
  else do
    let strs ← splitAndCleanClaims claimText
    Except.ok (applyDependents (strs.map parseClaimString))

/-! ## Response assembly composites (epo_ops/parsing.py)

The helper called text in parsing.py returns either None or a non-empty
stripped string, so extracted fields are modeled as Option String and the
Python truthiness test on them is modeled by pyTruthy. -/

/-- Python truthiness of an optional string. -/
def pyTruthy : Option String → Bool
  | none => false
  | some s => s ≠ ""

/-- Model of the docdb_number assembly in parse_search_response: built when
country and doc-number are truthy, with a missing kind replaced by the
empty string (the Python expression kind or empty). -/
def searchDocdbNumber (country docNumber kind : Option String) :
    Option String :=
  if pyTruthy country && pyTruthy docNumber then
    some ((country.getD "") ++ (docNumber.getD "") ++ (kind.getD ""))
  else none

/-- Model of the docdb_number assembly in parse_biblio_response: the
publication document node carries the country, doc-number and kind texts;
when the node is present each missing part is replaced by the empty
string, and when it is absent the composite stays None. -/
def biblioDocdbNumber
    (publicationDoc : Option (Option String × Option String × Option String)) :
    Option String :=
  match publicationDoc with
  | none => none
  | some (c, d, k) => some ((c.getD "") ++ (d.getD "") ++ (k.getD ""))

/-- Model of the docdb_number assembly in parse_claims, identical in shape
to the biblio case but reading the fulltext document-id node. -/
def claimsDocdbNumber
    (documentId : Option (Option String × Option String × Option String)) :
    Option String :=
  match documentId with
  | none => none
  | some (c, d, k) => some ((c.getD "") ++ (d.getD "") ++ (k.getD ""))

/-! ## XML model and CPC retrieval (epo_ops/parsing.py)

Elements are modeled with their local tag name (the namespace map of the
source resolves each prefixed xpath step to one fixed tag), an attribute
list, the leading text, the child elements, and the tail text following
the element, exactly the lxml data model. -/

/-- Element tree for the XML responses. -/
inductive Xml where
  | node (tag : String) (attrs : List (String × String)) (text : Option String)
      (children : List Xml) (tail : Option String)
deriving Repr

/-- Tag accessor. -/
def Xml.tag : Xml → String
  | .node t _ _ _ _ => t

/-- Attribute list accessor. -/
def Xml.attrs : Xml → List (String × String)
  | .node _ a _ _ _ => a

/-- Text accessor. -/
def Xml.text : Xml → Option String
  | .node _ _ tx _ _ => tx

/-- Children accessor. -/
def Xml.children : Xml → List Xml
  | .node _ _ _ ch _ => ch

/-- Tail accessor. -/
def Xml.tail : Xml → Option String
  | .node _ _ _ _ tl => tl

/-- Model of the lxml get method on attributes: first binding wins
(attribute names are unique on a well-formed element). -/
def Xml.getAttr (x : Xml) (name : String) : Option String :=
  (x.attrs.find? (fun p => p.1 = name)).map Prod.snd

mutual

/-- Strict descendants of an element in document order. -/
def xmlDescendants : Xml → List Xml
  | .node _ _ _ ch _ => xmlDescList ch

/-- Helper for xmlDescendants over a child list. -/
def xmlDescList : List Xml → List Xml
  | [] => []
  | c :: rest => c :: (xmlDescendants c ++ xmlDescList rest)

end

/-- Model of an xpath descendant search for one tag, returning the first
match in document order as the helper called first does. -/
def findDescendant (tag : String) (x : Xml) : Option Xml :=
  (xmlDescendants x).find? (fun c => c.tag = tag)

mutual

/-- Model of the joined itertext of an element: its text followed by each
child subtree text and the tail of that child. -/
def xmlItertext : Xml → String
  | .node _ _ tx ch _ => (tx.getD "") ++ xmlItertextList ch

/-- Helper for xmlItertext over a child list. -/
def xmlItertextList : List Xml → String
  | [] => ""
  | c :: rest => xmlItertext c ++ (c.tail.getD "") ++ xmlItertextList rest

end

/-- Python str.strip lifted to String. -/
def stripS (s : String) : String := String.mk (pyStrip s.data)

/-- Model of the helper called text in parsing.py for a child-tag query:
walk the matching children in order and return the first whose stripped
subtree text is non-empty. -/
def xmlChildText (x : Xml) (tag : String) : Option String :=
  ((x.children.filter (fun c => c.tag = tag)).map
    (fun c => stripS (xmlItertext c))).find? (fun s => s ≠ "")

/-- Model of the int_attr helper: the attribute value must be present,
non-empty and all digits. -/
def intAttr (x : Xml) (attr : String) : Option Nat :=
  match x.getAttr attr with
  | some v =>
    if v ≠ "" && v.data.all Char.isDigit then some (digitsVal v.data) else none
  | none => none

/-- Classification item tree produced by parse_cpc_item, restricted to the
structural fields: symbol, level, and the recursive children (the title,
metadata and flag fields of the source record do not bear on the verified
claims and are read by the same child-query pattern). -/
inductive CpcItem where
  | mk (symbol : Option String) (level : Option Nat) (children : List CpcItem)
deriving Repr

/-- Children accessor for CpcItem. -/
def CpcItem.children : CpcItem → List CpcItem
  | .mk _ _ ch => ch

mutual

/-- Depth bound of an element tree, used as structural fuel. -/
def xmlSize : Xml → Nat
  | .node _ _ _ ch _ => 1 + xmlSizeL ch

/-- Depth bound over a child list. -/
def xmlSizeL : List Xml → Nat
  | [] => 0
  | c :: rest => xmlSize c + xmlSizeL rest

end

/-- Fuel-indexed helper for parseCpcItem; the fuel strictly exceeds the
tree depth at every call when seeded with xmlSize, so the zero case is
never reached. -/
def parseCpcItemF : Nat → Xml → CpcItem
  | 0, _ => CpcItem.mk none none []
  | fuel + 1, x =>
    CpcItem.mk
      (xmlChildText x "classification-symbol")
      (intAttr x "level")
      ((x.children.filter (fun c => c.tag = "classification-item")).map
        (parseCpcItemF fuel))

/-- Model of the recursive parse_cpc_item: symbol from the child query,
level from the attribute, children from the classification-item child
elements. -/
def parseCpcItem (x : Xml) : CpcItem := parseCpcItemF (xmlSize x) x

/-- Scheme record produced by parse_cpc_retrieval. -/
structure CpcScheme where
  schemeType : Option String
  exportDate : Option String
  items : List CpcItem
deriving Repr

/-- Model of parse_cpc_retrieval: a missing class-scheme node raises
XmlParseError (the error case); otherwise the scheme is built from the
classification-item children of the scheme node, possibly empty. -/
def parseCpcRetrieval (root : Xml) : Except String CpcScheme :=
  match findDescendant "class-scheme" root with
  | none => Except.error "Missing cpc:class-scheme in CPC retrieval response."
  | some sn =>
    Except.ok
      { schemeType := sn.getAttr "scheme-type"
        exportDate := sn.getAttr "export-date"
        items :=
          (sn.children.filter (fun c => c.tag = "classification-item")).map
            parseCpcItem }

/-! ## Date coercion (uspto_publications/transformers.py) -/

/-- Model of a Python datetime date object, always a valid calendar date
in the Python calendar range when produced by the embedded functions. -/
structure PyDate where
  year : Nat
  month : Nat
  day : Nat
deriving Repr, DecidableEq

/-- Left pad with zero digits to the given width. -/
def padZeros (w : Nat) (s : List Char) : List Char :=
  List.replicate (w - s.length) '0' ++ s

/-- Model of the isoformat method of a date. -/
def isoformat (d : PyDate) : String :=
  String.mk
    (padZeros 4 (natRender d.year) ++ '-' ::
      (padZeros 2 (natRender d.month) ++ '-' :: padZeros 2 (natRender d.day)))

/-- Gregorian leap year test, as in the Python calendar. -/
def isLeap (y : Nat) : Bool := (y % 4 = 0 && y % 100 != 0) || y % 400 = 0

/-- Days in a month of the Python calendar. -/
def daysInMonth (y m : Nat) : Nat :=
  if m = 2 then (if isLeap y then 29 else 28)
  else if m = 4 || m = 6 || m = 9 || m = 11 then 30
  else 31

/-- Validity of date components for the Python date constructor: year in
the range one to 9999, month in range, day within the month. -/
def validDate (y m d : Nat) : Bool :=
  1 ≤ y && y ≤ 9999 && 1 ≤ m && m ≤ 12 && 1 ≤ d && d ≤ daysInMonth y m

/-- Numeric value of one ASCII digit character. -/
def digitVal (c : Char) : Nat := c.toNat - '0'.toNat

/-- Model of the strptime year directive: exactly four digits. -/
def matchYear4 (s : List Char) : Option (Nat × List Char) :=
  match s with
  | a :: b :: c :: d :: rest =>
    if a.isDigit && b.isDigit && c.isDigit && d.isDigit then
      some (digitVal a * 1000 + digitVal b * 100 + digitVal c * 10 + digitVal d,
        rest)
    else none
  | _ => none

/-- Candidates of the strptime month directive in alternation order: one
followed by zero, one or two; zero followed by one to nine; a single digit
one to nine. -/
def matchMonth : List Char → List (Nat × List Char)
  | [] => []
  | c :: rest =>
    (match c, rest with
     | '1', x :: r2 =>
       if '0' ≤ x && x ≤ '2' then [(10 + digitVal x, r2)] else []
     | '0', x :: r2 =>
       if '1' ≤ x && x ≤ '9' then [(digitVal x, r2)] else []
     | _, _ => []) ++
    (if '1' ≤ c && c ≤ '9' then [(digitVal c, rest)] else [])

/-- Candidates of the strptime day directive in alternation order: three
followed by zero or one; one or two followed by a digit; zero followed by
one to nine; a single digit one to nine. -/
def matchDay : List Char → List (Nat × List Char)
  | [] => []
  | c :: rest =>
    (match c, rest with
     | '3', x :: r2 => if x = '0' || x = '1' then [(30 + digitVal x, r2)] else []
     | _, _ => []) ++
    (match c, rest with
     | '1', x :: r2 => if x.isDigit then [(10 + digitVal x, r2)] else []
     | '2', x :: r2 => if x.isDigit then [(20 + digitVal x, r2)] else []
     | _, _ => []) ++
    (match c, rest with
     | '0', x :: r2 => if '1' ≤ x && x ≤ '9' then [(digitVal x, r2)] else []
     | _, _ => []) ++
    (if '1' ≤ c && c ≤ '9' then [(digitVal c, rest)] else [])

/-- Model of strptime with the dashed year-month-day format: the regex
built by strptime must match the whole string (candidates are tried in
alternation order with backtracking), and the resulting components must
form a valid date, else the ValueError is caught by the caller. -/
def strptimeDash (s : List Char) : Option PyDate :=
  match matchYear4 s with
  | some (y, '-' :: r1) =>
    match
      (matchMonth r1).findSome? (fun p =>
        match p.2 with
        | '-' :: r3 =>
          (matchDay r3).findSome? (fun q =>
            if q.2 = [] then some (p.1, q.1) else none)
        | _ => none)
    with
    | some (m, d) => if validDate y m d then some ⟨y, m, d⟩ else none
    | none => none
  | _ => none

/-- Model of strptime with the compact year-month-day format. -/
def strptimeCompact (s : List Char) : Option PyDate :=
  match matchYear4 s with
  | some (y, r1) =>
    match
      (matchMonth r1).findSome? (fun p =>
        (matchDay p.2).findSome? (fun q =>
          if q.2 = [] then some (p.1, q.1) else none))
    with
    | some (m, d) => if validDate y m d then some ⟨y, m, d⟩ else none
    | none => none
  | none => none

/-- Exactly two digits. -/
def match2Digits (s : List Char) : Option (Nat × List Char) :=
  match s with
  | a :: b :: rest =>
    if a.isDigit && b.isDigit then some (digitVal a * 10 + digitVal b, rest)
    else none
  | _ => none

/-- Model of the optional utc offset accepted by fromisoformat: sign, two
hour digits, then optionally a colon and two minute digits or two minute
digits directly, optionally seconds after another colon. -/
def isoOffsetOk (s : List Char) : Bool :=
  match s with
  | [] => true
  | c :: rest =>
    (c = '+' || c = '-') &&
      (match match2Digits rest with
       | some (h, r2) =>
         h < 24 &&
           (match r2 with
            | [] => true
            | ':' :: r3 =>
              (match match2Digits r3 with
               | some (m, r4) =>
                 m < 60 &&
                   (match r4 with
                    | [] => true
                    | ':' :: r5 =>
                      (match match2Digits r5 with
                       | some (sec, r6) => sec < 60 && r6 = []
                       | none => false)
                    | _ => false)
               | none => false)
            | _ =>
              (match match2Digits r2 with
               | some (m, r4) => m < 60 && r4 = []
               | none => false))
       | none => false)

/-- Fractional seconds: a period or comma then at least one digit. -/
def isoFracOk (s : List Char) : Option (List Char) :=
  match s with
  | c :: d :: rest =>
    if (c = '.' || c = ',') && d.isDigit then
      some (rest.dropWhile Char.isDigit)
    else none
  | _ => none

/-- Model of the time part accepted by fromisoformat: two hour digits,
then optional colon-separated minutes and seconds (or their basic compact
forms), an optional fraction, and an optional offset. -/
def isoTimeOk (s : List Char) : Bool :=
  match match2Digits s with
  | some (h, r1) =>
    h < 24 &&
      (match r1 with
       | [] => true
       | ':' :: r2 =>
         (match match2Digits r2 with
          | some (m, r3) =>
            m < 60 &&
              (match r3 with
               | ':' :: r4 =>
                 (match match2Digits r4 with
                  | some (sec, r5) =>
                    sec < 60 &&
                      (match isoFracOk r5 with
                       | some r6 => isoOffsetOk r6
                       | none => isoOffsetOk r5)
                  | none => false)
               | _ => isoOffsetOk r3)
          | none => false)
       | _ =>
         (match match2Digits r1 with
          | some (m, r3) =>
            m < 60 &&
              (match match2Digits r3 with
               | some (sec, r5) =>
                 sec < 60 &&
                   (match isoFracOk r5 with
                    | some r6 => isoOffsetOk r6
                    | none => isoOffsetOk r5)
               | none => isoOffsetOk r3)
          | none => isoOffsetOk r1))
  | none => false

/-- Modelled from CPython datetime fromisoformat semantics for the common
shapes reaching this code path: an extended or basic calendar date,
optionally followed by a separator and a time with optional fraction and
offset.  Only the date part is returned, as the caller immediately takes
the date. -/
def fromIsoDatetime (s : List Char) : Option PyDate :=
  match matchYear4 s with
  | some (y, r1) =>
    let dmRest : Option (Nat × Nat × List Char) :=
      match r1 with
      | '-' :: r2 =>
        match match2Digits r2 with
        | some (m, '-' :: r3) =>
          (match2Digits r3).map (fun q => (m, q.1, q.2))
        | _ => none
      | _ =>
        match match2Digits r1 with
        | some (m, r2) => (match2Digits r2).map (fun q => (m, q.1, q.2))
        | none => none
    match dmRest with
    | some (m, d, rest) =>
      if validDate y m d then
        match rest with
        | [] => some ⟨y, m, d⟩
        | c :: tr =>
          if (c = 'T' || c = ' ') && isoTimeOk tr then some ⟨y, m, d⟩
          else none
      else none
    | none => none
  | none => none

/-- Upstream value fed into the date coercion helpers: the JSON payloads
carry null, strings, integers or already-parsed dates. -/
inductive PyVal where
  | none
  | date (d : PyDate)
  | int (n : Int)
  | str (s : String)
deriving Repr, DecidableEq

/-- Decimal rendering of an integer, the Python str of an int. -/
def intRender (n : Int) : List Char :=
  if n < 0 then '-' :: natRender n.natAbs else natRender n.toNat

/-- Model of the Python str conversion for the modeled values.  For a date
the str conversion is its isoformat. -/
def pyValStr : PyVal → List Char
  | .none => "None".data
  | .date d => (isoformat d).data
  | .int n => intRender n
  | .str s => s.data

/-- Model of str.replace for the Z suffix with the utc offset text. -/
def replaceZ : List Char → List Char
  | [] => []
  | c :: rest =>
    if c = 'Z' then '+' :: '0' :: '0' :: ':' :: '0' :: '0' :: replaceZ rest
    else c :: replaceZ rest

/-- Shared tail of parse_date: choose the dashed or compact strptime
format by the presence of a dash, return the isoformat on success and
None on the caught ValueError. -/
def strptimeBranch (string : List Char) : Except String (Option String) :=
  let r :=
    if string.contains '-' then strptimeDash string else strptimeCompact string
  match r with
  | some d => Except.ok (some (isoformat d))
  | none => Except.ok none

/-- Model of the parse_date helper in transformers.py.  The int branch of
the source converts the value with str of int and continues with the
string logic; the string is stripped, a string containing T goes through
fromisoformat with the Z replacement (ValueError falling through), and
the remainder goes through strptime with the ValueError mapped to None. -/
def parseDate (value : PyVal) : Except String (Option String) :=
  if value = .none || value = .str "" then Except.ok Option.none
  else
    match value with
    | .date d => Except.ok (some (isoformat d))
    | v =>
      let string := pyStrip (pyValStr v)
      if string = [] then Except.ok Option.none
      else if string.contains 'T' then
        match fromIsoDatetime (replaceZ string) with
        | some d => Except.ok (some (isoformat d))
        | Option.none => strptimeBranch string
      else strptimeBranch string

/-- Model of the parse_month helper in transformers.py: short values map
to None, the year and month slices go through the int constructor with
ValueError mapped to None, and the date constructor raises (uncaught) on
components outside the calendar range. -/
def parseMonth (value : PyVal) : Except String (Option String) :=
  if value = .none || value = .str "" then Except.ok Option.none
  else
    let string := pyValStr value
    if string.length < 6 then Except.ok Option.none
    else
      match pyInt (string.take 4), pyInt ((string.take 6).drop 4) with
      | some y, some m =>
        if 1 ≤ y && y ≤ 9999 && 1 ≤ m && m ≤ 12 then
          Except.ok (some (isoformat ⟨y.toNat, m.toNat, 1⟩))
        else Except.error "ValueError: date component out of range"
      | _, _ => Except.ok Option.none

/-! ## HTML model and Google Patents claim extraction
(google_patents/parsers/claims.py)

Elements carry the lxml data model: tag, attributes, leading text, and the
child list where each child is paired with its tail text (in lxml the tail
is stored on the child; keeping it beside the child in the parent list is
the same data).  All extraction helpers of the source are embedded as pure
functions; the in-place mutations of the source (span removal and span
unwrapping, both performed on a deep copy) are embedded as the
corresponding pure tree transformations, and the store-level embedding
further below models the mutation explicitly. -/

/-- Element tree for the scraped HTML. -/
inductive Html where
  | elem (tag : String) (attrs : List (String × String)) (text : Option String)
      (children : List (Html × Option String))
deriving Repr

/-- Tag accessor. -/
def Html.tag : Html → String
  | .elem t _ _ _ => t

/-- Attribute accessor. -/
def Html.attrs : Html → List (String × String)
  | .elem _ a _ _ => a

/-- Text accessor. -/
def Html.text : Html → Option String
  | .elem _ _ tx _ => tx

/-- Children accessor. -/
def Html.children : Html → List (Html × Option String)
  | .elem _ _ _ ch => ch

/-- Model of the lxml get method on attributes. -/
def Html.getAttr (x : Html) (name : String) : Option String :=
  (x.attrs.find? (fun p => p.1 = name)).map Prod.snd

/-- Child elements without their tails. -/
def childElems (x : Html) : List Html := x.children.map Prod.fst

mutual

/-- Text pieces of the subtree in document order: the element text, then
recursively each child followed by its tail.  The join of these pieces is
the lxml text_content of the element. -/
def contentPieces : Html → List String
  | .elem _ _ tx ch =>
    (match tx with | some s => [s] | Option.none => []) ++ contentPiecesL ch

/-- Helper for contentPieces over a child list. -/
def contentPiecesL : List (Html × Option String) → List String
  | [] => []
  | (c, tl) :: rest =>
    contentPieces c ++ (match tl with | some s => [s] | Option.none => []) ++
      contentPiecesL rest

end

/-- Model of the lxml text_content method. -/
def textContent (x : Html) : String := String.join (contentPieces x)

mutual

/-- Strict descendants satisfying the predicate, in document order: the
xpath dot-slash-slash search used throughout the source. -/
def descWith (p : Html → Bool) : Html → List Html
  | .elem _ _ _ ch => descWithL p ch

/-- Helper for descWith over a child list. -/
def descWithL (p : Html → Bool) : List (Html × Option String) → List Html
  | [] => []
  | (c, _) :: rest =>
    (if p c then [c] else []) ++ descWith p c ++ descWithL p rest

end

/-- Descendant-or-self variant for the slash-slash searches rooted at the
document. -/
def descOrSelfWith (p : Html → Bool) (x : Html) : List Html :=
  (if p x then [x] else []) ++ descWith p x

/-! Python whitespace split without arguments: the maximal non-whitespace
runs, no empty tokens. -/

mutual

/-- Helper for splitWs: inside a word. -/
def wordRunsGo : List Char → List Char → List (List Char)
  | [], acc => [acc.reverse]
  | c :: rest, acc =>
    if pySpace c then acc.reverse :: wordRunsSkip rest
    else wordRunsGo rest (c :: acc)

/-- Helper for splitWs: between words. -/
def wordRunsSkip : List Char → List (List Char)
  | [] => []
  | c :: rest =>
    if pySpace c then wordRunsSkip rest else wordRunsGo rest [c]

end

/-- Model of str.split with no arguments. -/
def splitWs (s : String) : List String := (wordRunsSkip s.data).map String.mk

/-- Model of the class token membership tests: both the has_class helper
and the xpath contains tests over the padded normalized class attribute
check that the name occurs among the whitespace-separated tokens. -/
def hasClassToken (x : Html) (name : String) : Bool :=
  (splitWs ((x.getAttr "class").getD "")).contains name

/-- Recognizer for the original-language spans: a span whose class
attribute is exactly google-src-text, as in the xpath attribute test. -/
def isSrcSpan (x : Html) : Bool :=
  x.tag = "span" && x.getAttr "class" = some "google-src-text"

/-- Recognizer for the wrapper spans removed by the unwrapping pass. -/
def isNotranslate (x : Html) : Bool :=
  x.tag = "span" && x.getAttr "class" = some "notranslate"

/-- Model of extract_original_text: collect the text content of every
descendant original-language span, keep the truthy ones normalized, and
join with single spaces; None when no span or no part survives. -/
def extractOriginalText (el : Html) : Option String :=
  let spans := descWith isSrcSpan el
  if spans.isEmpty then Option.none
  else
    let parts :=
      ((spans.map textContent).filter (fun t => t ≠ "")).map
        (fun t => String.mk (cleanText t.data))
    if parts = [] then Option.none else some (" ".intercalate parts)

mutual

/-- Pure form of the span-removal loop of extract_translated_text: every
descendant original-language span is detached together with its tail (the
lxml remove drops the tail with the element).  Removing a span also
detaches the spans nested below it, which matches the imperative loop
because removal of an already-detached span has no effect on the tree. -/
def stripSrc : Html → Html
  | .elem t a tx ch => .elem t a tx (stripSrcL ch)

/-- Helper for stripSrc over a child list. -/
def stripSrcL : List (Html × Option String) → List (Html × Option String)
  | [] => []
  | (c, tl) :: rest =>
    if isSrcSpan c then stripSrcL rest else (stripSrc c, tl) :: stripSrcL rest

end

/-- Python truthiness of an optional tail string. -/
def truthyOS : Option String → Bool
  | Option.none => false
  | some s => s ≠ ""

/-- The or-empty concatenation used when a tail is reattached. -/
def addTailTo (old : Option String) (add : String) : Option String :=
  some ((old.getD "") ++ add)

/-- Append text to the tail of the last element of a child list. -/
def modifyLastTail (l : List (Html × Option String)) (add : String) :
    List (Html × Option String) :=
  match l.getLast? with
  | Option.none => l
  | some (c, tl) => l.dropLast ++ [(c, addTailTo tl add)]

/-! Node count functions, used as fuel for the unwrapping pass. -/

mutual

/-- Node count of an element. -/
def hSize : Html → Nat
  | .elem _ _ _ ch => 1 + hSizeL ch

/-- Node count of a child list, with one extra unit per entry. -/
def hSizeL : List (Html × Option String) → Nat
  | [] => 0
  | (c, _) :: rest => 1 + hSize c + hSizeL rest

end

mutual

/-- Fuel-indexed form of the notranslate unwrapping loop of
extract_translated_text.  The imperative loop precomputes the document
order list of notranslate spans and processes them one by one; the
worklist here visits the same elements in the same order: a span is
replaced in place by its children, which are then examined before the
following siblings, exactly the document order.  The fuel strictly exceeds
the worklist node count at every call when seeded with hSize, so the zero
case is never reached. -/
def unwrapNTF : Nat → Html → Html
  | 0, x => x
  | fuel + 1, .elem t a tx ch =>
    let st := unwrapWorkF fuel tx [] ch
    .elem t a st.1 st.2

/-- Worklist helper for unwrapNTF: pt is the parent text (which receives
the tail of a childless span unwrapped at the front), acc the processed
output, and the final argument the pending children.  A notranslate span
is replaced by its children (its text dropped); a truthy tail is appended
to the tail of its last child, or to the tail of the previously processed
sibling, or to the parent text.  Other elements are processed recursively
(their own descendants precede the following siblings in document order)
and appended. -/
def unwrapWorkF : Nat → Option String → List (Html × Option String) →
    List (Html × Option String) → Option String × List (Html × Option String)
  | 0, pt, acc, l => (pt, acc ++ l)
  | _ + 1, pt, acc, [] => (pt, acc)
  | fuel + 1, pt, acc, (c, tl) :: rest =>
    if isNotranslate c then
      if c.children.isEmpty then
        match tl with
        | some t =>
          if t ≠ "" then
            if acc.isEmpty then unwrapWorkF fuel (addTailTo pt t) acc rest
            else unwrapWorkF fuel pt (modifyLastTail acc t) rest
          else unwrapWorkF fuel pt acc rest
        | Option.none => unwrapWorkF fuel pt acc rest
      else
        let kids2 :=
          match tl with
          | some t => if t ≠ "" then modifyLastTail c.children t else c.children
          | Option.none => c.children
        unwrapWorkF fuel pt acc (kids2 ++ rest)
    else unwrapWorkF fuel pt (acc ++ [(unwrapNTF fuel c, tl)]) rest

end

/-- The notranslate unwrapping pass with sufficient fuel. -/
def unwrapNT (x : Html) : Html := unwrapNTF (hSize x) x

/-- Model of extract_translated_text: operate on a copy of the element
(pure values make the copy implicit here; the store-level embedding below
makes it explicit), remove the original-language spans, unwrap the
notranslate spans, and normalize the remaining text content. -/
def extractTranslatedText (el : Html) : String :=
  String.mk (cleanText (textContent (unwrapNT (stripSrc el))).data)

/-- Model of str.replace of a two character pattern by its second
character, as used for space-comma and space-semicolon cleanup. -/
def replace2 (a b : Char) : List Char → List Char
  | [] => []
  | [x] => [x]
  | x :: y :: rest =>
    if x = a && y = b then y :: replace2 a b rest
    else x :: replace2 a b (y :: rest)

/-- Model of strip_leading_number: remove one leading digit run followed
by a period and optional whitespace, tighten space before comma and
semicolon, and strip. -/
def stripLeadingNumber (s : List Char) : List Char :=
  let run := s.takeWhile Char.isDigit
  let s1 :=
    if run ≠ [] then
      match s.drop run.length with
      | '.' :: r => r.dropWhile pySpace
      | _ => s
    else s
  pyStrip (replace2 ' ' ';' (replace2 ' ' ',' s1))

/-- Word characters for the boundary test of the wherein pattern. -/
def isWordChar (c : Char) : Bool := c.isAlpha || c.isDigit || c = '_'

/-- Attempt of the comma-wherein separator pattern at one position: a
comma, optional whitespace, the caseless word wherein, and a word
boundary.  Returns the rest after the separator. -/
def whereinMatchAt : List Char → Option (List Char)
  | ',' :: r =>
    let r2 := r.dropWhile pySpace
    if (r2.take 7).map Char.toLower = "wherein".data then
      let rest := r2.drop 7
      match rest with
      | [] => some []
      | c :: _ => if isWordChar c then Option.none else some rest
    else Option.none
  | _ => Option.none

/-- Scanner realizing re.split on the comma-wherein pattern (separators
dropped, no capture group). -/
def whereinScan : Nat → List Char → List Char → List (List Char)
  | 0, s, acc => [acc.reverse ++ s]
  | fuel + 1, s, acc =>
    match s with
    | [] => [acc.reverse]
    | c :: rest =>
      match whereinMatchAt s with
      | some after => acc.reverse :: whereinScan fuel after []
      | Option.none => whereinScan fuel rest (c :: acc)

/-- Model of the re.split call in split_long_limitations. -/
def whereinSplit (s : List Char) : List (List Char) :=
  whereinScan (s.length + 1) s []

/-- Enumerated rebuild loop of split_long_limitations: empty segments are
skipped, and segments after the first are re-prefixed with wherein when
the split consumed that word. -/
def buildWherein : Nat → List (List Char) → List String
  | _, [] => []
  | i, p :: rest =>
    let seg := pyStrip p
    if seg = [] then buildWherein (i + 1) rest
    else
      let seg2 :=
        if i > 0 && !((seg.take 7).map Char.toLower = "wherein".data) then
          "wherein ".data ++ seg
        else seg
      String.mk seg2 :: buildWherein (i + 1) rest

/-- Model of split_long_limitations: short texts pass through; texts over
fifty words are re-split on comma-wherein boundaries when present. -/
def splitLongLimitations (text : String) : List String :=
  let cleaned := stripS text
  if cleaned = "" then []
  else
    let words := splitWs cleaned
    if words.length ≤ 50 then [cleaned]
    else
      let parts := whereinSplit cleaned.data
      if parts.length = 1 then [cleaned]
      else
        let results := buildWherein 0 parts
        if results = [] then [cleaned] else results

/-- The claim-text child elements of a node: div children carrying the
claim-text class token, and otherwise the claim-text tag children (the
newer structure). -/
def childClaimTexts (x : Html) : List Html :=
  if ((childElems x).filter
        (fun c => c.tag = "div" && hasClassToken c "claim-text")).isEmpty then
    (childElems x).filter (fun c => c.tag = "claim-text")
  else
    (childElems x).filter (fun c => c.tag = "div" && hasClassToken c "claim-text")

/-- Loop of direct_text_before_nested over the children: stop at the first
claim-text div, otherwise collect each child subtree text and its tail. -/
def dtbnLoop : List (Html × Option String) → List String
  | [] => []
  | (c, tl) :: rest =>
    if c.tag.toLower = "div" && hasClassToken c "claim-text" then []
    else
      (let ct := stripS (textContent c); if ct ≠ "" then [ct] else []) ++
        (match tl with
         | some t => if stripS t ≠ "" then [stripS t] else []
         | Option.none => []) ++
        dtbnLoop rest

/-- Model of direct_text_before_nested: the element text and the child
texts before the first nested claim-text div, space-joined and
normalized. -/
def directTextBeforeNested (textDiv : Html) : String :=
  let parts :=
    (match textDiv.text with
     | some t => if stripS t ≠ "" then [stripS t] else []
     | Option.none => []) ++ dtbnLoop textDiv.children
  String.mk (cleanText (" ".intercalate parts).data)

/-- Fuel-indexed helper for extractLimitationsRec; the fuel strictly
exceeds the tree depth at every call when seeded with hSize, so the zero
case is never reached. -/
def extractLimitationsRecF : Nat → Html → List String
  | 0, _ => []
  | fuel + 1, td =>
    (let dt := directTextBeforeNested td; if dt ≠ "" then [dt] else []) ++
      (childClaimTexts td).flatMap (extractLimitationsRecF fuel)

/-- Model of extract_limitations_recursive: the direct text at this level,
then recursively each nested claim-text child. -/
def extractLimitationsRec (td : Html) : List String :=
  extractLimitationsRecF (hSize td) td

/-- Model of extract_limitations: the claim-text children of the claim
element (or the whole text content when there are none), the direct text
at each level plus the recursive nested extraction, then the per-item
leading-number strip and long-limitation split. -/
def extractLimitations (claimDiv : Html) : List String :=
  let textDivs := childClaimTexts claimDiv
  if textDivs.isEmpty then
    splitLongLimitations (String.mk (cleanText (textContent claimDiv).data))
  else
    let limitations :=
      textDivs.flatMap (fun td =>
        (let dt := directTextBeforeNested td; if dt ≠ "" then [dt] else []) ++
          (childClaimTexts td).flatMap extractLimitationsRec)
    limitations.flatMap (fun lim =>
      splitLongLimitations (String.mk (stripLeadingNumber lim.data)))

/-- Model of extract_original_limitations: over the descendant claim-text
nodes (div form first, tag form otherwise), the truthy original texts with
their leading numbers stripped, kept when still truthy. -/
def extractOriginalLimitations (claimElement : Html) : List String :=
  let textDivs :=
    let d :=
      descWith (fun c => c.tag = "div" && hasClassToken c "claim-text")
        claimElement
    if d.isEmpty then descWith (fun c => c.tag = "claim-text") claimElement
    else d
  textDivs.filterMap (fun td =>
    match extractOriginalText td with
    | some orig =>
      if orig ≠ "" then
        let cleaned := String.mk (stripLeadingNumber orig.data)
        if cleaned ≠ "" then some cleaned else Option.none
      else Option.none
    | Option.none => Option.none)

/-- Claim record of extract_claims. -/
structure GClaim where
  number : String
  text : String
  originalText : Option String
  claimType : String
  dependsOn : Option String
deriving Repr, DecidableEq

/-- Model of a Python dict assignment on a string-keyed dict kept in
insertion order: overwrite in place or append a new binding. -/
def dictSet {α : Type} (d : List (String × α)) (k : String) (v : α) :
    List (String × α) :=
  if d.any (fun p => p.1 = k) then
    d.map (fun p => if p.1 = k then (k, v) else p)
  else d ++ [(k, v)]

/-- Model of str.lstrip with the zero character. -/
def lstripZeros (s : List Char) : List Char := s.dropWhile (fun c => c = '0')

/-- Model of str.replace removing every occurrence of the CLM- marker. -/
def replaceCLM : List Char → List Char
  | 'C' :: 'L' :: 'M' :: '-' :: rest => replaceCLM rest
  | c :: rest => c :: replaceCLM rest
  | [] => []

/-- Body of the per-element loop of extract_claims, threading the three
outputs. -/
def processClaim
    (st : List GClaim × List (String × List String) × List (String × List String))
    (el : Html) :
    List GClaim × List (String × List String) × List (String × List String) :=
  let rawNumber := (el.getAttr "num").getD ""
  let claimNumber := String.mk (pyStrip (lstripZeros rawNumber.data))
  if claimNumber = "" then st
  else
    let orig0 := extractOriginalText el
    let orig1 : Option String :=
      match orig0 with
      | some s =>
        if s ≠ "" then some (String.mk (stripLeadingNumber s.data)) else some s
      | Option.none => Option.none
    let origTruthy : Bool :=
      match orig1 with
      | some s => s != ""
      | Option.none => false
    let fullText :=
      if origTruthy then String.mk (stripLeadingNumber (extractTranslatedText el).data)
      else
        String.mk
          (stripLeadingNumber (String.mk (cleanText (textContent el).data)).data)
    let idrefs :=
      (descWith (fun c => c.tag = "claim-ref") el).filterMap
        (fun c => c.getAttr "idref")
    let dependsOn : Option String :=
      match idrefs.head? with
      | some r =>
        if r.data.take 4 = "CLM-".data then
          some (String.mk (lstripZeros (replaceCLM r.data)))
        else Option.none
      | Option.none => Option.none
    let classAttr := (el.getAttr "class").getD ""
    let claimType :=
      if (splitWs classAttr).contains "child" ||
          (match dependsOn with
           | some s => s != ""
           | Option.none => false) then
        "dependent"
      else "independent"
    let claim : GClaim := ⟨claimNumber, fullText, orig1, claimType, dependsOn⟩
    let lims := (extractLimitations el).filter (fun i => i ≠ "")
    let st1 := (st.1 ++ [claim], dictSet st.2.1 claimNumber lims, st.2.2)
    if origTruthy then
      let olims := (extractOriginalLimitations el).filter (fun i => i ≠ "")
      (st1.1, st1.2.1, dictSet st1.2.2 claimNumber olims)
    else st1

/-- Model of extract_claims: locate the claims container (class token form
first, then the itemprop section), the claim elements below it (div form
first, then the claim tag form), and fold the per-element processing. -/
def extractClaims (root : Html) :
    List GClaim × List (String × List String) × List (String × List String) :=
  let containers :=
    descOrSelfWith (fun x => x.tag = "div" && hasClassToken x "claims") root
  let containers :=
    if containers.isEmpty then
      descOrSelfWith
        (fun x => x.tag = "section" && x.getAttr "itemprop" = some "claims") root
    else containers
  match containers with
  | [] => ([], [], [])
  | container :: _ =>
    let elems :=
      descWith
        (fun x =>
          x.tag = "div" && hasClassToken x "claim" && (x.getAttr "num").isSome)
        container
    let elems :=
      if elems.isEmpty then
        descWith (fun x => x.tag = "claim" && (x.getAttr "num").isSome) container
      else elems
    elems.foldl processClaim ([], [], [])

/-- Text pieces of an optional slot. -/
def optPiece : Option String → List String
  | some s => [s]
  | Option.none => []

mutual

/-- Text pieces removed by stripSrc: the pieces lying under a top-most
original-language span, together with the tail of that span (the lxml
removal drops the tail with the element).  These are the slots the
translated extraction can never read. -/
def srcTopSlots : Html → List String
  | .elem _ _ _ ch => srcTopSlotsL ch

/-- Helper for srcTopSlots over a child list. -/
def srcTopSlotsL : List (Html × Option String) → List String
  | [] => []
  | (c, tl) :: rest =>
    if isSrcSpan c then (contentPieces c ++ optPiece tl) ++ srcTopSlotsL rest
    else srcTopSlots c ++ srcTopSlotsL rest

end

/-! ## Store-level embedding of the translated-text extraction

The source mutates lxml elements in place: extract_translated_text deep
copies its element and then removes and unwraps spans on the copy.  To
state that the input element is never mutated, the element arena is made
explicit: nodes live in a store keyed by identity, the deep copy allocates
fresh identities, and the removal and unwrapping passes are store updates.
The frame theorem then says that every binding present before the call is
untouched. -/

/-- One lxml element as stored data: tag, attributes, text, tail, and the
identities of the children in order. -/
structure Node where
  tag : String
  attrs : List (String × String)
  text : Option String
  tail : Option String
  kids : List Nat
deriving Repr, DecidableEq

/-- Element arena: bindings in allocation order and the next fresh
identity. -/
structure Store where
  nodes : List (Nat × Node)
  nextId : Nat
deriving Repr, DecidableEq

/-- Lookup of a node by identity. -/
def Store.find (s : Store) (i : Nat) : Option Node :=
  (s.nodes.find? (fun p => p.1 = i)).map Prod.snd

/-- In-place update of a node binding. -/
def Store.set (s : Store) (i : Nat) (n : Node) : Store :=
  ⟨s.nodes.map (fun p => if p.1 = i then (i, n) else p), s.nextId⟩

/-- Allocation of a fresh node. -/
def Store.alloc (s : Store) (n : Node) : Store × Nat :=
  (⟨s.nodes ++ [(s.nextId, n)], s.nextId + 1⟩, s.nextId)

/-- Well-formed store: every bound identity is below the allocation
counter. -/
def StoreWF (s : Store) : Prop := ∀ p ∈ s.nodes, p.1 < s.nextId

/-- Attribute lookup on stored nodes. -/
def nodeAttr (n : Node) (k : String) : Option String :=
  (n.attrs.find? (fun p => p.1 = k)).map Prod.snd

/-- Stored-node form of the original-language span recognizer. -/
def isSrcNode (n : Node) : Bool :=
  n.tag = "span" && nodeAttr n "class" = some "google-src-text"

/-- Stored-node form of the notranslate span recognizer. -/
def isNTNode (n : Node) : Bool :=
  n.tag = "span" && nodeAttr n "class" = some "notranslate"

mutual

/-- Materialize the subtree rooted at an identity as a pure element; the
fuel bounds the traversal and is chosen large enough by the callers. -/
def readTree : Nat → Store → Nat → Option Html
  | 0, _, _ => Option.none
  | fuel + 1, s, i =>
    match s.find i with
    | Option.none => Option.none
    | some n =>
      (readKids fuel s n.kids).map (fun pairs => Html.elem n.tag n.attrs n.text pairs)

/-- Helper for readTree over a child identity list. -/
def readKids : Nat → Store → List Nat → Option (List (Html × Option String))
  | 0, _, _ => Option.none
  | _ + 1, _, [] => some []
  | fuel + 1, s, i :: rest => do
    let h ← readTree fuel s i
    let n ← s.find i
    let r ← readKids fuel s rest
    pure ((h, n.tail) :: r)

end

mutual

/-- Model of the deep copy: allocate a fresh identity for every node of
the pure tree, children first. -/
def allocTree (s : Store) : Html → Option String → Store × Nat
  | .elem t a tx ch, tail =>
    let p := allocKids s ch
    (p.1.alloc ⟨t, a, tx, tail, p.2⟩)

/-- Helper for allocTree over a child list. -/
def allocKids (s : Store) : List (Html × Option String) → Store × List Nat
  | [] => (s, [])
  | (c, tl) :: rest =>
    let p := allocTree s c tl
    let q := allocKids p.1 rest
    (q.1, p.2 :: q.2)

end

mutual

/-- Store form of the span removal loop of extract_translated_text: drop
every original-language span from the child list of each node, top down;
a removed span takes its whole subtree (and its tail) with it, matching
the lxml removal. -/
def stripSrcStore : Nat → Store → Nat → Store
  | 0, s, _ => s
  | fuel + 1, s, i =>
    match s.find i with
    | Option.none => s
    | some n =>
      let keep := n.kids.filter (fun j =>
        match s.find j with
        | some cn => !(isSrcNode cn)
        | Option.none => true)
      stripSrcKids fuel (s.set i { n with kids := keep }) keep

/-- Helper for stripSrcStore over a child identity list. -/
def stripSrcKids : Nat → Store → List Nat → Store
  | 0, s, _ => s
  | _ + 1, s, [] => s
  | fuel + 1, s, j :: rest => stripSrcKids fuel (stripSrcStore fuel s j) rest

end

mutual

/-- Store form of the notranslate unwrapping loop, the same document-order
worklist as unwrapNTF but performed by store updates. -/
def unwrapStoreF : Nat → Store → Nat → Store
  | 0, s, _ => s
  | fuel + 1, s, i =>
    match s.find i with
    | Option.none => s
    | some n =>
      let r := unwrapWorkS fuel s n.text [] n.kids
      r.1.set i { n with text := r.2.1, kids := r.2.2 }

/-- Worklist helper for unwrapStoreF; mirrors unwrapWorkF with the tail
reattachments performed as store updates. -/
def unwrapWorkS : Nat → Store → Option String → List Nat → List Nat →
    Store × Option String × List Nat
  | 0, s, pt, acc, l => (s, pt, acc ++ l)
  | _ + 1, s, pt, acc, [] => (s, pt, acc)
  | fuel + 1, s, pt, acc, j :: rest =>
    match s.find j with
    | Option.none => unwrapWorkS fuel s pt (acc ++ [j]) rest
    | some cn =>
      if isNTNode cn then
        if cn.kids.isEmpty then
          match cn.tail with
          | some t =>
            if t ≠ "" then
              if acc.isEmpty then unwrapWorkS fuel s (addTailTo pt t) acc rest
              else
                match acc.getLast? with
                | some li =>
                  let s2 :=
                    match s.find li with
                    | some ln => s.set li { ln with tail := addTailTo ln.tail t }
                    | Option.none => s
                  unwrapWorkS fuel s2 pt acc rest
                | Option.none => unwrapWorkS fuel s pt acc rest
            else unwrapWorkS fuel s pt acc rest
          | Option.none => unwrapWorkS fuel s pt acc rest
        else
          let s2 :=
            match cn.tail with
            | some t =>
              if t ≠ "" then
                match cn.kids.getLast? with
                | some lk =>
                  match s.find lk with
                  | some lkn => s.set lk { lkn with tail := addTailTo lkn.tail t }
                  | Option.none => s
                | Option.none => s
              else s
            | Option.none => s
          unwrapWorkS fuel s2 pt acc (cn.kids ++ rest)
      else unwrapWorkS fuel (unwrapStoreF fuel s j) pt (acc ++ [j]) rest

end

/-- Generous traversal fuel for a store. -/
def storeFuel (s : Store) : Nat := 2 * s.nodes.length + 2

/-- Store-level model of extract_translated_text: materialize the element,
deep copy it into fresh identities, remove the original-language spans and
unwrap the notranslate spans on the copy, and return the normalized text
content of the copy together with the final store. -/
def extractTranslatedSt (s : Store) (i : Nat) : Option String × Store :=
  match readTree (storeFuel s) s i with
  | Option.none => (Option.none, s)
  | some h =>
    let origTail := match s.find i with | some n => n.tail | Option.none => Option.none
    let p := allocTree s h origTail
    let s2 := stripSrcStore (storeFuel p.1) p.1 p.2
    let s3 := unwrapStoreF (storeFuel s2) s2 p.2
    match readTree (storeFuel s3) s3 p.2 with
    | some h2 => (some (String.mk (cleanText (textContent h2).data)), s3)
    | Option.none => (Option.none, s3)

/-- Nodes at or above the watermark reference only children at or above
the watermark. -/
def ClosedAbove (s : Store) (N : Nat) : Prop :=
  ∀ p ∈ s.nodes, N ≤ p.1 → ∀ j ∈ p.2.kids, N ≤ j

/-- Nodes below the watermark reference only children below it. -/
def ClosedBelow (s : Store) (N : Nat) : Prop :=
  ∀ p ∈ s.nodes, p.1 < N → ∀ j ∈ p.2.kids, j < N

/-- A concrete document for exercising extract_claims: a claims container
holding one claim element whose only content is a whitespace-only
original-language span, so that the extracted original text is the empty
string (non-None but falsy). -/
def c10Tree : Html :=
  Html.elem "div" [("class", "claims")] Option.none
    [(Html.elem "div" [("class", "claim"), ("num", "1")] Option.none
        [(Html.elem "span" [("class", "google-src-text")] (some "   ") [],
          Option.none)],
      Option.none)]

/-! ## Helper lemmas -/

theorem takeWhile_all_append (p : Char → Bool) (l1 l2 : List Char)
    (h : ∀ c ∈ l1, p c) :
    (l1 ++ l2).takeWhile p = l1 ++ l2.takeWhile p := by
  induction l1 with
  | nil => simp
  | cons c rest ih =>
    have hc : p c = true := h c (by simp)
    have hr : ∀ d ∈ rest, p d = true := fun d hd => h d (by simp [hd])
    simp [List.takeWhile_cons, hc, ih hr]

theorem dropWhile_all_append (p : Char → Bool) (l1 l2 : List Char)
    (h : ∀ c ∈ l1, p c) :
    (l1 ++ l2).dropWhile p = l2.dropWhile p := by
  induction l1 with
  | nil => simp
  | cons c rest ih =>
    have hc : p c = true := h c (by simp)
    have hr : ∀ d ∈ rest, p d = true := fun d hd => h d (by simp [hd])
    simp [List.dropWhile_cons, hc, ih hr]

theorem drop_takeWhile_length (p : Char → Bool) (l : List Char) :
    l.drop (l.takeWhile p).length = l.dropWhile p := by
  induction l with
  | nil => simp
  | cons c rest ih =>
    simp only [List.takeWhile_cons, List.dropWhile_cons]
    by_cases hc : p c
    · simp [hc, ih]
    · simp [hc]

theorem digitChar_isDigit (d : Nat) (h : d < 10) : (digitChar d).isDigit = true := by
  unfold digitChar
  interval_cases d <;> decide

theorem natDigitsAux_digits (fuel : Nat) :
    ∀ n, ∀ c ∈ natDigitsAux fuel n, c.isDigit = true := by
  induction fuel with
  | zero => intro n c hc; simp [natDigitsAux] at hc
  | succ fuel ih =>
    intro n c hc
    unfold natDigitsAux at hc
    by_cases h : n = 0
    · simp [h] at hc
    · simp only [h, if_false, List.mem_cons] at hc
      rcases hc with rfl | hc
      · exact digitChar_isDigit _ (Nat.mod_lt _ (by norm_num))
      · exact ih _ c hc

theorem natRender_ne_nil (n : Nat) : natRender n ≠ [] := by
  unfold natRender
  by_cases h : n = 0
  · simp [h]
  · simp only [h, if_false]
    obtain ⟨m, rfl⟩ := Nat.exists_eq_succ_of_ne_zero h
    unfold natDigitsAux
    simp

theorem natRender_digits (n : Nat) : ∀ c ∈ natRender n, c.isDigit = true := by
  unfold natRender
  by_cases h : n = 0
  · simp only [h, if_true]
    decide
  · simp only [h, if_false]
    intro c hc
    rw [List.mem_reverse] at hc
    exact natDigitsAux_digits n n c hc

/-! ## Claim C1: range expansion -/

theorem searchNumber_renderEntry (n : Nat) (body : List Char) :
    searchNumber (renderEntry n body) =
      some ([], natRender n ++ '.' :: ' ' :: body.takeWhile pySpace,
        body.dropWhile pySpace) := by
  have hdig := natRender_digits n
  have hne := natRender_ne_nil n
  have hrun :
      (natRender n ++ '.' :: ' ' :: body).takeWhile Char.isDigit =
        natRender n := by
    rw [takeWhile_all_append Char.isDigit _ _ hdig]
    simp [List.takeWhile_cons]
  have hmatch :
      numberMatchAt (natRender n ++ '.' :: ' ' :: body) =
        some (natRender n ++ '.' :: ' ' :: body.takeWhile pySpace,
          body.dropWhile pySpace) := by
    simp only [numberMatchAt, hrun, List.drop_left, hne, if_false]
    have hsp : pySpace ' ' = true := rfl
    simp only [List.takeWhile_cons, hsp, if_true, List.length_cons,
      List.drop_succ_cons, drop_takeWhile_length]
    simp
  obtain ⟨d, ds, hds⟩ : ∃ d ds, natRender n = d :: ds := by
    cases hnr : natRender n with
    | nil => exact absurd hnr hne
    | cons d ds => exact ⟨d, ds, rfl⟩
  have hre : renderEntry n body = d :: (ds ++ '.' :: ' ' :: body) := by
    unfold renderEntry
    rw [hds]
    simp
  unfold searchNumber
  rw [hre]
  unfold searchNumberAux
  rw [← List.cons_append, ← hds]
  unfold renderEntry at hmatch
  rw [hmatch]
  simp

theorem parseClaimString_renderEntry (n : Nat) (body : List Char) :
    (parseClaimString (renderEntry n body)).limitations =
      ((grouper2Fill (limSplit (body.dropWhile pySpace))).map
        (fun p => cleanText (p.1 ++ p.2))).filter (fun l => l ≠ []) := by
  unfold parseClaimString
  rw [searchNumber_renderEntry]
  simp

/-- Claim C1 (amended): for a hyphenated range marker whose cleaned form
begins with a digit segment, so that the first two digit segments parse as
bounds N and M with N at most M, the expansion loop produces exactly
M - N + 1 entries, one per integer in the inclusive range, all sharing the
body text, and after parsing all the entries carry identical limitation
lists.  The original claim covered every marker denoting a valid range;
range markers inside amendment forms make the int constructor raise, as
the counterexample shows, so the claim is restricted to markers whose
cleaned form starts with the digits of the lower bound. -/
theorem range_expansion_spec
    (tok body ns ms : List Char) (rest : List (List Char)) (N M : Nat)
    (hHyph : tok.contains '-' = true)
    (hSegs : splitNonDigits (tok.filter (fun c => c ≠ '.')) = ns :: ms :: rest)
    (hN : pyInt ns = some (N : Int)) (hM : pyInt ms = some (M : Int))
    (hNM : N ≤ M) :
    expandPair tok (some body) =
        Except.ok
          ((List.range' N (M + 1 - N)).map (fun n => renderEntry n body)) ∧
      ((List.range' N (M + 1 - N)).map (fun n => renderEntry n body)).length =
        M + 1 - N ∧
      (∀ e ∈ (List.range' N (M + 1 - N)).map (fun n => renderEntry n body),
        ∃ n, N ≤ n ∧ n ≤ M ∧ e = renderEntry n body) ∧
      (∀ e1 ∈ (List.range' N (M + 1 - N)).map (fun n => renderEntry n body),
        ∀ e2 ∈ (List.range' N (M + 1 - N)).map (fun n => renderEntry n body),
          (parseClaimString e1).limitations = (parseClaimString e2).limitations) := by
  refine ⟨?_, ?_, ?_, ?_⟩
  · simp only [expandPair, hHyph, if_true, hSegs, hN, hM, Int.toNat_ofNat,
      bodyStr]
  · simp
  · intro e he
    rw [List.mem_map] at he
    obtain ⟨n, hn, rfl⟩ := he
    rw [List.mem_range'_1] at hn
    exact ⟨n, hn.1, by omega, rfl⟩
  · intro e1 h1 e2 h2
    rw [List.mem_map] at h1 h2
    obtain ⟨n1, _, rfl⟩ := h1
    obtain ⟨n2, _, rfl⟩ := h2
    rw [parseClaimString_renderEntry, parseClaimString_renderEntry]

/-- Witness for range_expansion_spec at the marker 2-4. with a concrete
body. -/
theorem range_expansion_spec_witness :
    expandPair "2-4.".data (some "The widget of claim 1.".data) =
      Except.ok
        ((List.range' 2 3).map (fun n => renderEntry n "The widget of claim 1.".data)) :=
  (range_expansion_spec "2-4.".data "The widget of claim 1.".data
    "2".data "4".data [] 2 4 (by decide) (by decide) (by decide) (by decide)
    (by decide)).1

/-- Counterexample to claim C1 as stated: the marker .Iadd.1-2. contains a
hyphen denoting the valid range one to two, yet splitting raises a
ValueError (the cleaned token starts with non-digits, so the int
constructor receives an empty segment) instead of expanding to two
entries. -/
theorem range_expansion_counterexample :
    splitAndCleanClaims ".Iadd.1-2. A widget.".data = Except.error () ∧
      claimsParse ".Iadd.1-2. A widget.".data = Except.error () := by decide

/-! ## Claim C2: the dependent-claims inverse index -/

theorem applyDependentsAux_map_number (all : List ClaimRec)
    (cur : List ClaimRec) :
    (applyDependentsAux all cur).map ClaimRec.number = cur.map ClaimRec.number := by
  induction cur with
  | nil => rfl
  | cons c rest ih =>
    unfold applyDependentsAux
    simp only [List.map_cons, ih]
    congr 1
    split <;> rfl

theorem applyDependentsAux_nodup (all : List ClaimRec) (cur : List ClaimRec)
    (h : (cur.map ClaimRec.number).Nodup) :
    applyDependentsAux all cur =
      cur.map (fun c => { c with dependentClaims := inverseFor all c.number }) := by
  induction cur with
  | nil => rfl
  | cons c rest ih =>
    rw [List.map_cons, List.nodup_cons] at h
    have hall : rest.all (fun c2 => c2.number ≠ c.number) = true := by
      rw [List.all_eq_true]
      intro c2 hc2
      simp only [ne_eq, decide_eq_true_eq]
      intro heq
      exact h.1 (List.mem_map.mpr ⟨c2, hc2, heq⟩)
    unfold applyDependentsAux
    rw [hall]
    simp only [if_pos, List.map_cons, List.cons.injEq, true_and]
    exact ih h.2

theorem inverseFor_mem (data : List ClaimRec) (p m : Nat) :
    m ∈ inverseFor data p ↔ ∃ c ∈ data, c.number = m ∧ p ∈ c.dependsOn := by
  unfold inverseFor
  rw [List.mem_flatten]
  constructor
  · rintro ⟨s, hs, hm⟩
    rw [List.mem_map] at hs
    obtain ⟨c, hc, rfl⟩ := hs
    rw [List.mem_map] at hm
    obtain ⟨d, hd, rfl⟩ := hm
    rw [List.mem_filter] at hd
    refine ⟨c, hc, rfl, ?_⟩
    have : d = p := by simpa using hd.2
    exact this ▸ hd.1
  · rintro ⟨c, hc, rfl, hp⟩
    refine ⟨(c.dependsOn.filter (fun d => d = p)).map (fun _ => c.number),
      List.mem_map.mpr ⟨c, hc, rfl⟩, ?_⟩
    rw [List.mem_map]
    exact ⟨p, List.mem_filter.mpr ⟨hp, by simp⟩, rfl⟩

theorem applyDependents_inverse (data : List ClaimRec)
    (hnd : ((applyDependents data).map ClaimRec.number).Nodup) :
    ∀ r ∈ applyDependents data, ∀ m,
      m ∈ r.dependentClaims ↔
        ∃ c ∈ applyDependents data, c.number = m ∧ r.number ∈ c.dependsOn := by
  have hmap := applyDependentsAux_map_number data data
  unfold applyDependents at hnd ⊢
  rw [hmap] at hnd
  rw [applyDependentsAux_nodup data data hnd]
  intro r hr m
  rw [List.mem_map] at hr
  obtain ⟨c0, hc0, rfl⟩ := hr
  simp only [inverseFor_mem]
  constructor
  · rintro ⟨c, hc, hcm, hdep⟩
    exact ⟨{ c with dependentClaims := inverseFor data c.number },
      List.mem_map.mpr ⟨c, hc, rfl⟩, hcm, hdep⟩
  · rintro ⟨c, hc, hcm, hdep⟩
    rw [List.mem_map] at hc
    obtain ⟨c1, hc1, rfl⟩ := hc
    exact ⟨c1, hc1, hcm, hdep⟩

/-- Claim C2 (amended): when the parse succeeds and the claim numbers of
the result are pairwise distinct, the dependent-claims lists are exactly
the inverse of the depends-on relation over the claims of the same parse:
m is listed among the dependents of record r exactly when some claim of
the parse has number m and lists the number of r among its dependencies.
References to numbers absent from the parse contribute nothing.  The
original claim additionally asserted that no claim ever appears in its own
dependent-claims list; a claim whose body cites its own number refutes
that, as the counterexample shows, so that conjunct is dropped. -/
theorem dependents_inverse (s : List Char) (l : List ClaimRec)
    (hok : claimsParse s = Except.ok l)
    (hnd : (l.map ClaimRec.number).Nodup) :
    ∀ r ∈ l, ∀ m,
      m ∈ r.dependentClaims ↔
        ∃ c ∈ l, c.number = m ∧ r.number ∈ c.dependsOn := by
  unfold claimsParse at hok
  by_cases hs : s = []
  · rw [if_pos hs] at hok
    cases hok
    intro r hr
    simp at hr
  · rw [if_neg hs] at hok
    cases hsp : splitAndCleanClaims s with
    | error e => rw [hsp] at hok; cases hok
    | ok strs =>
      rw [hsp] at hok
      have hok2 :
          Except.ok (applyDependents (strs.map parseClaimString)) =
            Except.ok l := hok
      cases hok2
      exact applyDependents_inverse _ hnd

/-- Witness for dependents_inverse on a two claim parse with distinct
numbers: claim 2 is listed among the dependents of claim 1 exactly
because claim 2 depends on claim 1. -/
theorem dependents_inverse_witness :
    2 ∈ (ClaimRec.mk 1 ["A widget.".data] [] [2]).dependentClaims ↔
      ∃ c ∈ [ClaimRec.mk 1 ["A widget.".data] [] [2],
        ClaimRec.mk 2 ["The widget of claim 1.".data] [1] []],
        c.number = 2 ∧
          (ClaimRec.mk 1 ["A widget.".data] [] [2]).number ∈ c.dependsOn :=
  dependents_inverse "1. A widget.\n2. The widget of claim 1.".data
    [ClaimRec.mk 1 ["A widget.".data] [] [2],
      ClaimRec.mk 2 ["The widget of claim 1.".data] [1] []]
    (by decide) (by decide)
    (ClaimRec.mk 1 ["A widget.".data] [] [2]) (by decide) 2

/-- Counterexample to claim C2 as stated: in a parse where the body of
claim 2 cites claim 2 itself, the record numbered 2 lists its own number
in its dependent-claims list. -/
theorem dependents_inverse_counterexample :
    claimsParse "1. A widget.\n2. The widget of claim 2, with a lever.".data =
        Except.ok
          [ClaimRec.mk 1 ["A widget.".data] [] [],
            ClaimRec.mk 2 ["The widget of claim 2, with a lever.".data] [2] [2]] ∧
      ((ClaimRec.mk 2 ["The widget of claim 2, with a lever.".data] [2]
          [2]).dependentClaims.contains
        (ClaimRec.mk 2 ["The widget of claim 2, with a lever.".data] [2]
          [2]).number) = true := by
  decide

/-! ## Claim C3: non-empty limitations -/

/-- Claim C3 (amended): a claim string without a parsable number keeps the
whole cleaned text as its single limitation, and every limitation kept for
a numbered claim is a non-empty string; however a numbered claim whose
remainder cleans to nothing ends with an empty limitations list rather
than a one-element list, as the counterexample shows, so the original
never-empty guarantee is restricted to the elements. -/
theorem limitations_spec (t : List Char) :
    (searchNumber t = none → (parseClaimString t).limitations = [cleanText t]) ∧
      (∀ pre m rest, searchNumber t = some (pre, m, rest) →
        ∀ lim ∈ (parseClaimString t).limitations, lim ≠ []) := by
  constructor
  · intro h
    unfold parseClaimString
    rw [h]
  · intro pre m rest h lim hlim
    unfold parseClaimString at hlim
    rw [h] at hlim
    simp only at hlim
    rw [List.mem_filter] at hlim
    simpa using hlim.2

/-- Witness for limitations_spec on a claim string without a number. -/
theorem limitations_spec_witness :
    (parseClaimString "a widget".data).limitations = [cleanText "a widget".data] :=
  (limitations_spec "a widget".data).1 (by decide)

/-- Counterexample to claim C3 as stated: the input consisting of the
range marker 1-2. with an empty body parses into two claim records whose
limitations lists are empty. -/
theorem limitations_counterexample :
    claimsParse "1-2.".data =
      Except.ok [ClaimRec.mk 1 [] [] [], ClaimRec.mk 2 [] [] []] := by decide

/-! ## Claim C4: dependency phrase parsing -/

/-- Claim C4 (confirmed): the dependency of a claim body is the list of
integers in the captured number list when the claim-reference phrase
matches; otherwise all integers from one up to but excluding the claim
number when a catch-all phrase occurs; otherwise empty.  A claim string
without a parsable number yields record number zero with empty
dependencies instead of raising. -/
theorem parse_dependency_spec (t : List Char) (n : Nat) :
    (∀ cap, searchDep t = some cap → parseDependency t n = digitRuns cap) ∧
      (searchDep t = none → dependAllSearch t = true →
        ∀ m, m ∈ parseDependency t n ↔ (1 ≤ m ∧ m < n)) ∧
      (searchDep t = none → dependAllSearch t = false →
        parseDependency t n = []) ∧
      (searchNumber t = none →
        parseClaimString t = ⟨0, [cleanText t], [], []⟩) := by
  refine ⟨?_, ?_, ?_, ?_⟩
  · intro cap h
    unfold parseDependency
    rw [h]
  · intro h hall m
    unfold parseDependency
    rw [h]
    simp only [hall, if_pos]
    rw [List.mem_range'_1]
    omega
  · intro h hall
    unfold parseDependency
    rw [h]
    simp [hall]
  · intro h
    unfold parseClaimString
    rw [h]

/-- Witness for parse_dependency_spec on a catch-all body with claim
number 4. -/
theorem parse_dependency_spec_witness :
    2 ∈ parseDependency "The lever of any of the foregoing claims".data 4 ↔
      (1 ≤ 2 ∧ 2 < 4) :=
  (parse_dependency_spec "The lever of any of the foregoing claims".data 4).2.1
    (by decide) (by decide) 2

/-! ## Claim C5: composite document identifiers -/

/-- Claim C5 (amended): the search composite is None exactly when country
or doc-number is missing, and is the concatenation of country, doc-number
and kind (with a missing kind replaced by the empty string) otherwise; the
biblio and claims composites are None exactly when the document-id anchor
node is absent, and otherwise concatenate the parts with every missing
part replaced by the empty string.  When all parts are present the
composite is the full concatenation, as the original claim states; but a
missing kind (search) or any missing part under a present anchor
(biblio, claims) yields a partially built string rather than None, as the
counterexample shows. -/
theorem composite_id_spec (country docNumber kind : Option String) :
    (searchDocdbNumber country docNumber kind = none ↔
      ¬(pyTruthy country = true ∧ pyTruthy docNumber = true)) ∧
      (pyTruthy country = true → pyTruthy docNumber = true →
        searchDocdbNumber country docNumber kind =
          some ((country.getD "") ++ (docNumber.getD "") ++ (kind.getD ""))) ∧
      biblioDocdbNumber none = none ∧
      (∀ c d k : Option String,
        biblioDocdbNumber (some (c, d, k)) =
          some ((c.getD "") ++ (d.getD "") ++ (k.getD ""))) ∧
      claimsDocdbNumber none = none ∧
      (∀ c d k : Option String,
        claimsDocdbNumber (some (c, d, k)) =
          some ((c.getD "") ++ (d.getD "") ++ (k.getD ""))) := by
  refine ⟨?_, ?_, rfl, fun c d k => rfl, rfl, fun c d k => rfl⟩
  · unfold searchDocdbNumber
    by_cases hc : pyTruthy country = true
    · by_cases hd : pyTruthy docNumber = true
      · simp [hc, hd]
      · simp [hc, hd]
    · simp [hc]
  · intro hc hd
    unfold searchDocdbNumber
    simp [hc, hd]

/-- Witness for composite_id_spec: with all three parts present the
search composite is the full concatenation. -/
theorem composite_id_spec_witness :
    searchDocdbNumber (some "US") (some "1234567") (some "B2") =
      some ("US" ++ "1234567" ++ "B2") :=
  (composite_id_spec (some "US") (some "1234567") (some "B2")).2.1 rfl rfl

/-- Counterexample to claim C5 as stated: with the kind (search case) or
the country (biblio case) missing, the composite is still built as a
partial concatenation instead of being None. -/
theorem composite_id_counterexample :
    searchDocdbNumber (some "US") (some "1234567") none = some "US1234567" ∧
      biblioDocdbNumber (some (none, some "1234567", some "A1")) =
        some "1234567A1" ∧
      claimsDocdbNumber (some (some "EP", some "99", none)) = some "EP99" := by
  refine ⟨rfl, ?_, ?_⟩ <;> simp [biblioDocdbNumber, claimsDocdbNumber]

/-! ## Claim C6: CPC retrieval error behavior -/

/-- Claim C6 (confirmed): parse_cpc_retrieval fails (raising
XmlParseError) exactly when the class-scheme node is absent from the
document; when the scheme node is present it returns the scheme built
from its classification-item children, and in particular a scheme node
with zero such children yields an empty items list rather than an
error. -/
theorem cpc_retrieval_spec (root : Xml) :
    ((∃ e, parseCpcRetrieval root = Except.error e) ↔
      findDescendant "class-scheme" root = none) ∧
      (∀ sn, findDescendant "class-scheme" root = some sn →
        parseCpcRetrieval root =
            Except.ok
              { schemeType := sn.getAttr "scheme-type"
                exportDate := sn.getAttr "export-date"
                items :=
                  (sn.children.filter
                    (fun c => c.tag = "classification-item")).map parseCpcItem } ∧
          ((sn.children.filter (fun c => c.tag = "classification-item")) = [] →
            parseCpcRetrieval root =
              Except.ok
                { schemeType := sn.getAttr "scheme-type"
                  exportDate := sn.getAttr "export-date"
                  items := [] })) := by
  constructor
  · unfold parseCpcRetrieval
    cases h : findDescendant "class-scheme" root with
    | none => simp
    | some sn => simp
  · intro sn h
    have hok : parseCpcRetrieval root =
        Except.ok
          { schemeType := sn.getAttr "scheme-type"
            exportDate := sn.getAttr "export-date"
            items :=
              (sn.children.filter
                (fun c => c.tag = "classification-item")).map parseCpcItem } := by
      unfold parseCpcRetrieval
      rw [h]
    refine ⟨hok, fun hz => ?_⟩
    rw [hok, hz]
    simp

/-- Witness for cpc_retrieval_spec on a document whose class-scheme node
is present but has no classification-item children: the result is the
scheme with an empty items list. -/
theorem cpc_retrieval_spec_witness :
    parseCpcRetrieval
        (Xml.node "root" [] none
          [Xml.node "class-scheme" [("scheme-type", "cpc")] none
            [Xml.node "note" [] (some "empty") [] none] none] none) =
      Except.ok { schemeType := some "cpc", exportDate := none, items := [] } :=
  ((cpc_retrieval_spec
      (Xml.node "root" [] none
        [Xml.node "class-scheme" [("scheme-type", "cpc")] none
          [Xml.node "note" [] (some "empty") [] none] none] none)).2
    (Xml.node "class-scheme" [("scheme-type", "cpc")] none
      [Xml.node "note" [] (some "empty") [] none] none) (by rfl)).2 (by rfl)

/-! ## Claim C8: date coercion -/

theorem strptimeBranch_total (s : List Char) :
    ∃ r, strptimeBranch s = Except.ok r := by
  unfold strptimeBranch
  by_cases hc : s.contains '-'
  · simp only [hc, if_true]
    cases h : strptimeDash s with
    | some d => exact ⟨some (isoformat d), rfl⟩
    | none => exact ⟨Option.none, rfl⟩
  · simp only [Bool.not_eq_true] at hc
    simp only [hc, Bool.false_eq_true, if_false]
    cases h : strptimeCompact s with
    | some d => exact ⟨some (isoformat d), rfl⟩
    | none => exact ⟨Option.none, rfl⟩

/-- Claim C8 (amended): parse_date is total and never raises on any
modeled value; a string accepted by the dashed strptime format (the
ISO-like calendar dates) passes through to the isoformat of the parsed
date; and parse_month expands a value whose first six characters parse as
a year and a valid month to the first day of that month.  However
parse_month is not total: the date constructor is outside its try block,
so a six-or-more character value whose month slice parses to an integer
outside 1..12 raises ValueError, as the counterexample shows, refuting
the never-raises statement of the original claim. -/
theorem date_coercion_spec :
    (∀ v : PyVal, ∃ r, parseDate v = Except.ok r) ∧
      (∀ s : List Char, ∀ y m d : Nat,
        pyStrip s = s → s.contains 'T' = false → s.contains '-' = true →
          strptimeDash s = some ⟨y, m, d⟩ →
          parseDate (.str (String.mk s)) =
            Except.ok (some (isoformat ⟨y, m, d⟩))) ∧
      (∀ s : String, ∀ y m : Int,
        6 ≤ s.data.length →
          pyInt (s.data.take 4) = some y →
          pyInt ((s.data.take 6).drop 4) = some m →
          1 ≤ y → y ≤ 9999 → 1 ≤ m → m ≤ 12 →
          parseMonth (.str s) =
            Except.ok (some (isoformat ⟨y.toNat, m.toNat, 1⟩))) := by
  refine ⟨?_, ?_, ?_⟩
  · intro v
    unfold parseDate
    split
    · exact ⟨_, rfl⟩
    · split
      · exact ⟨_, rfl⟩
      · by_cases h0 : pyStrip (pyValStr v) = []
        · exact ⟨Option.none, by simp [h0]⟩
        · by_cases hT : 'T' ∈ pyStrip (pyValStr v)
          · cases hf : fromIsoDatetime (replaceZ (pyStrip (pyValStr v))) with
            | some d => exact ⟨some (isoformat d), by simp [h0, hT, hf]⟩
            | none =>
              obtain ⟨r, hr⟩ := strptimeBranch_total (pyStrip (pyValStr v))
              exact ⟨r, by simp [h0, hT, hf, hr]⟩
          · obtain ⟨r, hr⟩ := strptimeBranch_total (pyStrip (pyValStr v))
            exact ⟨r, by simp [h0, hT, hr]⟩
  · intro s y m d hstrip hT hDash hparse
    have hne : s ≠ [] := by
      intro h
      rw [h] at hparse
      simp [strptimeDash, matchYear4] at hparse
    have hmkne : String.mk s ≠ "" := by
      intro h
      exact hne (congrArg String.data h)
    unfold parseDate
    simp only [hmkne]
    rw [if_neg (by simp [hmkne])]
    show (let string := pyStrip (String.mk s).data
      if string = [] then Except.ok Option.none
      else if string.contains 'T' then
        match fromIsoDatetime (replaceZ string) with
        | some d => Except.ok (some (isoformat d))
        | Option.none => strptimeBranch string
      else strptimeBranch string) = _
    have hdata : (String.mk s).data = s := rfl
    simp only [hdata, hstrip, hne, if_false, hT]
    unfold strptimeBranch
    rw [hDash, hparse]
    simp
  · intro s y m h6 hy hm hy1 hy2 hm1 hm2
    have hsne : s ≠ "" := by
      intro h
      rw [h] at h6
      simp at h6
    unfold parseMonth
    rw [if_neg (by simp [hsne])]
    show (let string := pyValStr (.str s)
      if string.length < 6 then Except.ok Option.none
      else
        match pyInt (string.take 4), pyInt ((string.take 6).drop 4) with
        | some y, some m =>
          if 1 ≤ y && y ≤ 9999 && 1 ≤ m && m ≤ 12 then
            Except.ok (some (isoformat ⟨y.toNat, m.toNat, 1⟩))
          else Except.error "ValueError: date component out of range"
        | _, _ => Except.ok Option.none) = _
    have hdata : pyValStr (.str s) = s.data := rfl
    simp only [hdata]
    rw [if_neg (by omega)]
    rw [hy, hm]
    simp only []
    rw [if_pos (by simp [hy1, hy2, hm1, hm2])]

/-- Witness for date_coercion_spec: a dashed ISO date string passes
through parse_date to its isoformat. -/
theorem date_coercion_spec_witness :
    parseDate (.str "2023-01-15") = Except.ok (some (isoformat ⟨2023, 1, 15⟩)) :=
  date_coercion_spec.2.1 "2023-01-15".data 2023 1 15 (by decide) (by decide)
    (by decide) (by decide)

/-- Counterexample to claim C8 as stated: parse_month raises ValueError
on the six digit value 202313, whose month slice is 13, instead of
returning None. -/
theorem date_coercion_counterexample :
    parseMonth (.str "202313") =
      Except.error "ValueError: date component out of range" := by decide

/-! ## Claim C7: bilingual extraction partition -/

theorem stripSrc_elem (t : String) (a : List (String × String))
    (tx : Option String) (ch : List (Html × Option String)) :
    stripSrc (.elem t a tx ch) = .elem t a tx (stripSrcL ch) := rfl

theorem stripSrcL_cons (c : Html) (tl : Option String)
    (rest : List (Html × Option String)) :
    stripSrcL ((c, tl) :: rest) =
      if isSrcSpan c then stripSrcL rest
      else (stripSrc c, tl) :: stripSrcL rest := rfl

theorem contentPieces_elem (t : String) (a : List (String × String))
    (tx : Option String) (ch : List (Html × Option String)) :
    contentPieces (.elem t a tx ch) =
      (match tx with | some s => [s] | Option.none => []) ++ contentPiecesL ch :=
  rfl

theorem contentPiecesL_cons (c : Html) (tl : Option String)
    (rest : List (Html × Option String)) :
    contentPiecesL ((c, tl) :: rest) =
      contentPieces c ++ (match tl with | some s => [s] | Option.none => []) ++
        contentPiecesL rest := rfl

theorem descWith_elem (p : Html → Bool) (t : String)
    (a : List (String × String)) (tx : Option String)
    (ch : List (Html × Option String)) :
    descWith p (.elem t a tx ch) = descWithL p ch := rfl

theorem descWithL_cons (p : Html → Bool) (c : Html) (tl : Option String)
    (rest : List (Html × Option String)) :
    descWithL p ((c, tl) :: rest) =
      (if p c then [c] else []) ++ descWith p c ++ descWithL p rest := rfl

theorem srcTopSlots_elem (t : String) (a : List (String × String))
    (tx : Option String) (ch : List (Html × Option String)) :
    srcTopSlots (.elem t a tx ch) = srcTopSlotsL ch := rfl

theorem srcTopSlotsL_cons (c : Html) (tl : Option String)
    (rest : List (Html × Option String)) :
    srcTopSlotsL ((c, tl) :: rest) =
      if isSrcSpan c then (contentPieces c ++ optPiece tl) ++ srcTopSlotsL rest
      else srcTopSlots c ++ srcTopSlotsL rest := rfl

theorem isSrcSpan_stripSrc (c : Html) : isSrcSpan (stripSrc c) = isSrcSpan c := by
  cases c with
  | elem t a tx ch => rfl

mutual

theorem stripSrc_idem (el : Html) : stripSrc (stripSrc el) = stripSrc el := by
  cases el with
  | elem t a tx ch =>
    rw [stripSrc_elem, stripSrc_elem, stripSrcL_idem ch]

theorem stripSrcL_idem (ch : List (Html × Option String)) :
    stripSrcL (stripSrcL ch) = stripSrcL ch := by
  match ch with
  | [] => rfl
  | (c, tl) :: rest =>
    rw [stripSrcL_cons]
    by_cases hsrc : isSrcSpan c
    · rw [if_pos hsrc]
      exact stripSrcL_idem rest
    · rw [if_neg hsrc, stripSrcL_cons, isSrcSpan_stripSrc, if_neg hsrc,
        stripSrc_idem c, stripSrcL_idem rest]

end

mutual

theorem strip_partition_count (x : String) (el : Html) :
    (contentPieces (stripSrc el)).count x + (srcTopSlots el).count x =
      (contentPieces el).count x := by
  cases el with
  | elem t a tx ch =>
    rw [stripSrc_elem, contentPieces_elem, contentPieces_elem, srcTopSlots_elem]
    simp only [List.count_append]
    have := strip_partition_countL x ch
    omega

theorem strip_partition_countL (x : String)
    (ch : List (Html × Option String)) :
    (contentPiecesL (stripSrcL ch)).count x + (srcTopSlotsL ch).count x =
      (contentPiecesL ch).count x := by
  match ch with
  | [] => rfl
  | (c, tl) :: rest =>
    rw [stripSrcL_cons, srcTopSlotsL_cons, contentPiecesL_cons]
    by_cases hsrc : isSrcSpan c
    · rw [if_pos hsrc, if_pos hsrc]
      have h1 := strip_partition_countL x rest
      simp only [List.count_append]
      cases tl <;> simp only [optPiece, List.count_append, List.count_nil] <;>
        omega
    · rw [if_neg hsrc, if_neg hsrc, contentPiecesL_cons]
      simp only [List.count_append]
      have h1 := strip_partition_countL x rest
      have h2 := strip_partition_count x c
      omega

end

mutual

theorem contentPieces_descendant (p : Html → Bool) (el sp : Html)
    (h : sp ∈ descWith p el) : ∀ x ∈ contentPieces sp, x ∈ contentPieces el := by
  cases el with
  | elem t a tx ch =>
    rw [descWith_elem] at h
    intro x hx
    rw [contentPieces_elem, List.mem_append]
    exact Or.inr (contentPieces_descendantL p ch sp h x hx)

theorem contentPieces_descendantL (p : Html → Bool)
    (ch : List (Html × Option String)) (sp : Html) (h : sp ∈ descWithL p ch) :
    ∀ x ∈ contentPieces sp, x ∈ contentPiecesL ch := by
  match ch with
  | [] => exact absurd h (by simp [descWithL])
  | (c, tl) :: rest =>
    rw [descWithL_cons] at h
    intro x hx
    rw [contentPiecesL_cons]
    simp only [List.mem_append]
    rw [List.mem_append, List.mem_append] at h
    rcases h with (h | h) | h
    · by_cases hpc : p c
      · simp only [hpc, if_true, List.mem_singleton] at h
        subst h
        exact Or.inl (Or.inl hx)
      · simp [hpc] at h
    · exact Or.inl (Or.inl (contentPieces_descendant p c sp h x hx))
    · exact Or.inr (contentPieces_descendantL p rest sp h x hx)

end

mutual

theorem src_desc_in_top (el sp : Html) (h : sp ∈ descWith isSrcSpan el) :
    ∀ x ∈ contentPieces sp, x ∈ srcTopSlots el := by
  cases el with
  | elem t a tx ch =>
    rw [descWith_elem] at h
    rw [srcTopSlots_elem]
    exact src_desc_in_topL ch sp h

theorem src_desc_in_topL (ch : List (Html × Option String)) (sp : Html)
    (h : sp ∈ descWithL isSrcSpan ch) :
    ∀ x ∈ contentPieces sp, x ∈ srcTopSlotsL ch := by
  match ch with
  | [] => exact absurd h (by simp [descWithL])
  | (c, tl) :: rest =>
    rw [descWithL_cons] at h
    intro x hx
    rw [srcTopSlotsL_cons]
    rw [List.mem_append, List.mem_append] at h
    by_cases hsrc : isSrcSpan c
    · rw [if_pos hsrc]
      simp only [List.mem_append]
      rcases h with (h | h) | h
      · simp only [hsrc, if_true, List.mem_singleton] at h
        subst h
        exact Or.inl (Or.inl hx)
      · exact Or.inl (Or.inl (contentPieces_descendant isSrcSpan c sp h x hx))
      · exact Or.inr (src_desc_in_topL rest sp h x hx)
    · rw [if_neg hsrc]
      simp only [List.mem_append]
      rcases h with (h | h) | h
      · simp [hsrc] at h
      · exact Or.inl (src_desc_in_top c sp h x hx)
      · exact Or.inr (src_desc_in_topL rest sp h x hx)

end

/-- Claim C7 (confirmed): the translated-text extraction depends only on
the tree with the original-language spans removed (stripping first
changes nothing), and, whenever the text slots of the element are
pairwise distinct so that slots can be identified with their values, no
slot surviving the strip lies inside any original-language span.  The
original-text extraction reads, by construction, only the content of the
spans, so the two outputs never count one text node twice. -/
theorem bilingual_partition_spec (el : Html) :
    extractTranslatedText el = extractTranslatedText (stripSrc el) ∧
      ((contentPieces el).Nodup →
        ∀ x ∈ contentPieces (stripSrc el),
          ∀ sp ∈ descWith isSrcSpan el, x ∉ contentPieces sp) := by
  constructor
  · unfold extractTranslatedText
    rw [stripSrc_idem]
  · intro hnd x hx sp hsp hmem
    have h1 : x ∈ srcTopSlots el := src_desc_in_top el sp hsp x hmem
    have hcount := strip_partition_count x el
    have hc1 : 0 < (contentPieces (stripSrc el)).count x :=
      List.count_pos_iff.mpr hx
    have hc2 : 0 < (srcTopSlots el).count x := List.count_pos_iff.mpr h1
    have hle := List.nodup_iff_count_le_one.mp hnd x
    omega

/-- Witness for bilingual_partition_spec on a concrete bilingual element:
the surviving slot of the stripped tree does not occur inside the
original-language span. -/
theorem bilingual_partition_spec_witness :
    "Hello " ∉
      contentPieces
        (Html.elem "span" [("class", "google-src-text")] (some "HOLA") []) :=
  (bilingual_partition_spec
      (Html.elem "div" [] (some "Hello ")
        [(Html.elem "span" [("class", "google-src-text")] (some "HOLA") [],
          some " World")])).2
    (by decide) "Hello " (by decide)
    (Html.elem "span" [("class", "google-src-text")] (some "HOLA") [])
    (by
      rw [show
        descWith isSrcSpan
            (Html.elem "div" [] (some "Hello ")
              [(Html.elem "span" [("class", "google-src-text")] (some "HOLA")
                  [], some " World")]) =
          [Html.elem "span" [("class", "google-src-text")] (some "HOLA") []]
        from rfl]
      exact List.mem_cons_self _ _)

/-! ## Claim C10: key consistency of the extract_claims outputs -/

theorem dictSet_keys {α : Type} (d : List (String × α)) (k j : String)
    (v : α) :
    j ∈ (dictSet d k v).map Prod.fst ↔ j ∈ d.map Prod.fst ∨ j = k := by
  unfold dictSet
  by_cases hany : d.any (fun p => p.1 = k)
  · have hk : k ∈ d.map Prod.fst := by
      rw [List.any_eq_true] at hany
      obtain ⟨p, hp, hpk⟩ := hany
      simp only [decide_eq_true_eq] at hpk
      exact List.mem_map.mpr ⟨p, hp, hpk⟩
    have hmap :
        (d.map (fun p => if p.1 = k then (k, v) else p)).map Prod.fst =
          d.map Prod.fst := by
      rw [List.map_map]
      apply List.map_congr_left
      intro p _
      by_cases hpk : p.1 = k
      · simp [hpk]
      · simp [hpk]
    rw [if_pos hany, hmap]
    constructor
    · exact Or.inl
    · rintro (h | rfl)
      · exact h
      · exact hk
  · rw [if_neg hany]
    simp


theorem optTruthy_iff (o : Option String) :
    ((match o with | some s => s != "" | Option.none => false) = true) ↔
      ∃ s, o = some s ∧ s ≠ "" := by
  cases o with
  | none => simp
  | some s => simp

theorem processClaim_keys
    (st : List GClaim × List (String × List String) × List (String × List String))
    (el : Html)
    (h1 : ∀ k, k ∈ st.2.1.map Prod.fst ↔ ∃ c ∈ st.1, c.number = k)
    (h2 : ∀ k, k ∈ st.2.2.map Prod.fst ↔
      ∃ c ∈ st.1, c.number = k ∧ ∃ s, c.originalText = some s ∧ s ≠ "") :
    (∀ k, k ∈ (processClaim st el).2.1.map Prod.fst ↔
      ∃ c ∈ (processClaim st el).1, c.number = k) ∧
    (∀ k, k ∈ (processClaim st el).2.2.map Prod.fst ↔
      ∃ c ∈ (processClaim st el).1, c.number = k ∧
        ∃ s, c.originalText = some s ∧ s ≠ "") := by
  by_cases h0 :
      String.mk (pyStrip (lstripZeros ((el.getAttr "num").getD "").data)) = ""
  · constructor
    · intro k
      simp only [processClaim, h0, if_true]
      exact h1 k
    · intro k
      simp only [processClaim, h0, if_true]
      exact h2 k
  · simp only [processClaim, h0, if_false]
    split
    · rename_i horig
      rw [optTruthy_iff] at horig
      obtain ⟨s0, hs0, hs0ne⟩ := horig
      constructor
      · intro k
        dsimp only
        rw [dictSet_keys, h1 k]
        simp only [List.mem_append, List.mem_singleton]
        constructor
        · rintro (⟨c, hc, hck⟩ | rfl)
          · exact ⟨c, Or.inl hc, hck⟩
          · exact ⟨_, Or.inr rfl, rfl⟩
        · rintro ⟨c, hc | rfl, hck⟩
          · exact Or.inl ⟨c, hc, hck⟩
          · exact Or.inr hck.symm
      · intro k
        dsimp only
        rw [dictSet_keys, h2 k]
        simp only [List.mem_append, List.mem_singleton]
        constructor
        · rintro (⟨c, hc, hck, hs⟩ | rfl)
          · exact ⟨c, Or.inl hc, hck, hs⟩
          · exact ⟨_, Or.inr rfl, rfl, s0, hs0, hs0ne⟩
        · rintro ⟨c, hc | rfl, hck, hs⟩
          · exact Or.inl ⟨c, hc, hck, hs⟩
          · exact Or.inr hck.symm
    · rename_i horig
      rw [optTruthy_iff] at horig
      constructor
      · intro k
        dsimp only
        rw [dictSet_keys, h1 k]
        simp only [List.mem_append, List.mem_singleton]
        constructor
        · rintro (⟨c, hc, hck⟩ | rfl)
          · exact ⟨c, Or.inl hc, hck⟩
          · exact ⟨_, Or.inr rfl, rfl⟩
        · rintro ⟨c, hc | rfl, hck⟩
          · exact Or.inl ⟨c, hc, hck⟩
          · exact Or.inr hck.symm
      · intro k
        dsimp only
        rw [h2 k]
        constructor
        · rintro ⟨c, hc, hck, hs⟩
          exact ⟨c, List.mem_append.mpr (Or.inl hc), hck, hs⟩
        · rintro ⟨c, hc, hck, hs⟩
          rcases List.mem_append.mp hc with hc | hc
          · exact ⟨c, hc, hck, hs⟩
          · rw [List.mem_singleton] at hc
            subst hc
            exact absurd hs horig

theorem foldl_processClaim_keys (els : List Html)
    (st : List GClaim × List (String × List String) × List (String × List String))
    (h1 : ∀ k, k ∈ st.2.1.map Prod.fst ↔ ∃ c ∈ st.1, c.number = k)
    (h2 : ∀ k, k ∈ st.2.2.map Prod.fst ↔
      ∃ c ∈ st.1, c.number = k ∧ ∃ s, c.originalText = some s ∧ s ≠ "") :
    (∀ k, k ∈ (els.foldl processClaim st).2.1.map Prod.fst ↔
      ∃ c ∈ (els.foldl processClaim st).1, c.number = k) ∧
    (∀ k, k ∈ (els.foldl processClaim st).2.2.map Prod.fst ↔
      ∃ c ∈ (els.foldl processClaim st).1, c.number = k ∧
        ∃ s, c.originalText = some s ∧ s ≠ "") := by
  induction els generalizing st with
  | nil => exact ⟨h1, h2⟩
  | cons el rest ih =>
    have h := processClaim_keys st el h1 h2
    exact ih (processClaim st el) h.1 h.2

/-- Claim C10: for every input document, the key list of the structured
limitations mapping of extract_claims consists exactly of the claim numbers
of the returned claims; a key appears in the original limitations mapping
exactly when some returned claim carries that number and a truthy (non-None
and non-empty) original text.  The original claim said non-None alone
suffices; a claim whose original text is the empty string (non-None but
falsy) is skipped, so the criterion is truthiness, not non-None-ness. -/
theorem extract_claims_keys_spec (root : Html) :
    (∀ k, k ∈ (extractClaims root).2.1.map Prod.fst ↔
      ∃ c ∈ (extractClaims root).1, c.number = k) ∧
    (∀ k, k ∈ (extractClaims root).2.2.map Prod.fst ↔
      ∃ c ∈ (extractClaims root).1, c.number = k ∧
        ∃ s, c.originalText = some s ∧ s ≠ "") := by
  simp only [extractClaims]
  split
  · constructor <;> intro k <;> simp
  · exact foldl_processClaim_keys _ ([], [], [])
      (by intro k; simp) (by intro k; simp)

/-- Witness for the C10 key-consistency theorem on a concrete document. -/
theorem extract_claims_keys_spec_witness :
    (∀ k, k ∈ (extractClaims c10Tree).2.1.map Prod.fst ↔
      ∃ c ∈ (extractClaims c10Tree).1, c.number = k) ∧
    (∀ k, k ∈ (extractClaims c10Tree).2.2.map Prod.fst ↔
      ∃ c ∈ (extractClaims c10Tree).1, c.number = k ∧
        ∃ s, c.originalText = some s ∧ s ≠ "") :=
  extract_claims_keys_spec c10Tree

/-- C10 counterexample: on a claim whose only content is a whitespace-only
original-language span, extract_claims returns a claim whose original text
is the empty string, hence non-None, yet its number is absent from the keys
of the original limitations mapping. -/
theorem extract_claims_keys_counterexample :
    ∃ c ∈ (extractClaims c10Tree).1,
      c.originalText ≠ Option.none ∧
      ¬ c.number ∈ (extractClaims c10Tree).2.2.map Prod.fst := by
  decide

/-! ## Claim C9: the extractors never mutate the input document -/

theorem find_mem (s : Store) (i : Nat) (n : Node) (h : s.find i = some n) :
    (i, n) ∈ s.nodes := by
  unfold Store.find at h
  cases hf : s.nodes.find? (fun p => p.1 = i) with
  | none => rw [hf] at h; cases h
  | some p =>
    rw [hf] at h
    have hp := List.find?_some hf
    have hm := List.mem_of_find?_eq_some hf
    simp only [decide_eq_true_eq] at hp
    have h2 : p.2 = n := by
      have : some p.2 = some n := h
      exact Option.some.inj this
    obtain ⟨pi, pn⟩ := p
    simp only at hp h2
    subst hp; subst h2
    exact hm

theorem find_set_ne (s : Store) (i j : Nat) (n : Node) (h : j ≠ i) :
    (s.set i n).find j = s.find j := by
  unfold Store.set Store.find
  simp only
  congr 1
  induction s.nodes with
  | nil => rfl
  | cons p rest ih =>
    simp only [List.map_cons, List.find?_cons]
    by_cases hp : p.1 = i
    · rw [if_pos hp]
      have h1 : (decide ((i, n).1 = j)) = false := by
        simp only [decide_eq_false_iff_not]
        exact fun hij => h (hij.symm)
      have h2 : (decide (p.1 = j)) = false := by
        simp only [decide_eq_false_iff_not, hp]
        exact fun hij => h (hij.symm)
      rw [h1, h2, ih]
    · rw [if_neg hp]
      cases hd : decide (p.1 = j) with
      | true => rfl
      | false => rw [ih]

theorem closedAbove_set (s : Store) (N i : Nat) (n : Node)
    (hc : ClosedAbove s N) (hk : ∀ j ∈ n.kids, N ≤ j) :
    ClosedAbove (s.set i n) N := by
  intro p hp hN
  unfold Store.set at hp
  simp only [List.mem_map] at hp
  obtain ⟨q, hq, hqe⟩ := hp
  by_cases hqi : q.1 = i
  · rw [if_pos hqi] at hqe
    subst hqe
    exact hk
  · rw [if_neg hqi] at hqe
    subst hqe
    exact hc q hq hN

theorem find_alloc_lt (s : Store) (n : Node) (j : Nat) (h : j < s.nextId) :
    (s.alloc n).1.find j = s.find j := by
  unfold Store.alloc Store.find
  simp only
  rw [List.find?_append]
  have hone : ([(s.nextId, n)].find? (fun p => p.1 = j)) = Option.none := by
    simp only [List.find?_cons, List.find?_nil]
    have : (decide ((s.nextId, n).1 = j)) = false := by
      simp only [decide_eq_false_iff_not]
      exact fun he => absurd (he ▸ h) (Nat.lt_irrefl _)
    rw [this]
  rw [hone]
  cases s.nodes.find? (fun p => p.1 = j) <;> rfl

theorem closedAbove_alloc (s : Store) (N : Nat) (n : Node)
    (hc : ClosedAbove s N) (hk : ∀ j ∈ n.kids, N ≤ j) :
    ClosedAbove (s.alloc n).1 N := by
  intro p hp hN
  unfold Store.alloc at hp
  simp only [List.mem_append, List.mem_cons, List.not_mem_nil, or_false] at hp
  rcases hp with hp | hp
  · exact hc p hp hN
  · subst hp
    exact hk

mutual

theorem allocTree_spec (h : Html) : ∀ (s : Store) (tl : Option String) (N : Nat),
    N ≤ s.nextId → ClosedAbove s N →
    s.nextId ≤ (allocTree s h tl).1.nextId ∧
    N ≤ (allocTree s h tl).2 ∧
    ClosedAbove (allocTree s h tl).1 N ∧
    (∀ j, j < N → (allocTree s h tl).1.find j = s.find j) := by
  intro s tl N hN hc
  match h with
  | .elem t a tx ch =>
    have hk := allocKids_spec ch s N hN hc
    unfold allocTree
    simp only
    refine ⟨?_, ?_, ?_, ?_⟩
    · exact Nat.le_trans hk.1 (Nat.le_succ _)
    · exact Nat.le_trans (Nat.le_trans hN hk.1) (Nat.le_refl _)
    · exact closedAbove_alloc _ N _ hk.2.2.1 hk.2.1
    · intro j hj
      rw [find_alloc_lt _ _ j (Nat.lt_of_lt_of_le hj (Nat.le_trans hN hk.1))]
      exact hk.2.2.2 j hj

theorem allocKids_spec (l : List (Html × Option String)) :
    ∀ (s : Store) (N : Nat),
    N ≤ s.nextId → ClosedAbove s N →
    s.nextId ≤ (allocKids s l).1.nextId ∧
    (∀ j ∈ (allocKids s l).2, N ≤ j) ∧
    ClosedAbove (allocKids s l).1 N ∧
    (∀ j, j < N → (allocKids s l).1.find j = s.find j) := by
  intro s N hN hc
  match l with
  | [] =>
    exact ⟨Nat.le_refl _, fun j hj => absurd hj (List.not_mem_nil j), hc,
      fun j _ => rfl⟩
  | (c, tl) :: rest =>
    have h1 := allocTree_spec c s tl N hN hc
    have h2 := allocKids_spec rest (allocTree s c tl).1 N
      (Nat.le_trans hN h1.1) h1.2.2.1
    unfold allocKids
    simp only
    refine ⟨Nat.le_trans h1.1 h2.1, ?_, h2.2.2.1, ?_⟩
    · intro j hj
      simp only [List.mem_cons] at hj
      rcases hj with hj | hj
      · subst hj; exact h1.2.1
      · exact h2.2.1 j hj
    · intro j hj
      rw [h2.2.2.2 j hj, h1.2.2.2 j hj]

end

mutual

theorem stripSrcStore_frame (fuel : Nat) : ∀ (s : Store) (i N : Nat),
    N ≤ i → ClosedAbove s N →
    ClosedAbove (stripSrcStore fuel s i) N ∧
    (∀ j, j < N → (stripSrcStore fuel s i).find j = s.find j) := by
  intro s i N hi hc
  match fuel with
  | 0 => exact ⟨hc, fun j _ => rfl⟩
  | fuel + 1 =>
    unfold stripSrcStore
    cases hf : s.find i with
    | none => exact ⟨hc, fun j _ => rfl⟩
    | some n =>
      simp only []
      have hmem := find_mem s i n hf
      have hkids : ∀ j ∈ n.kids, N ≤ j := hc (i, n) hmem hi
      have hkeep : ∀ j ∈ n.kids.filter (fun j =>
          match s.find j with
          | some cn => !(isSrcNode cn)
          | Option.none => true), N ≤ j :=
        fun j hj => hkids j (List.mem_of_mem_filter hj)
      have hset : ClosedAbove (s.set i { n with kids := n.kids.filter (fun j =>
          match s.find j with
          | some cn => !(isSrcNode cn)
          | Option.none => true) }) N :=
        closedAbove_set s N i _ hc hkeep
      have hrec := stripSrcKids_frame fuel
        (s.set i { n with kids := n.kids.filter (fun j =>
          match s.find j with
          | some cn => !(isSrcNode cn)
          | Option.none => true) })
        (n.kids.filter (fun j =>
          match s.find j with
          | some cn => !(isSrcNode cn)
          | Option.none => true)) N hkeep hset
      refine ⟨hrec.1, ?_⟩
      intro j hj
      rw [hrec.2 j hj, find_set_ne s i j _
        (Nat.ne_of_lt (Nat.lt_of_lt_of_le hj hi))]

theorem stripSrcKids_frame (fuel : Nat) : ∀ (s : Store) (l : List Nat) (N : Nat),
    (∀ j ∈ l, N ≤ j) → ClosedAbove s N →
    ClosedAbove (stripSrcKids fuel s l) N ∧
    (∀ j, j < N → (stripSrcKids fuel s l).find j = s.find j) := by
  intro s l N hl hc
  match fuel with
  | 0 => exact ⟨hc, fun j _ => rfl⟩
  | fuel + 1 =>
    match l with
    | [] => exact ⟨hc, fun j _ => rfl⟩
    | k :: rest =>
      have h1 := stripSrcStore_frame fuel s k N (hl k (List.mem_cons_self k rest)) hc
      have h2 := stripSrcKids_frame fuel (stripSrcStore fuel s k) rest N
        (fun j hj => hl j (List.mem_cons_of_mem k hj)) h1.1
      refine ⟨h2.1, ?_⟩
      intro j hj
      show (stripSrcKids fuel (stripSrcStore fuel s k) rest).find j = s.find j
      rw [h2.2 j hj, h1.2 j hj]

end

mutual

theorem unwrapStoreF_frame (fuel : Nat) : ∀ (s : Store) (i N : Nat),
    N ≤ i → ClosedAbove s N →
    ClosedAbove (unwrapStoreF fuel s i) N ∧
    (∀ j, j < N → (unwrapStoreF fuel s i).find j = s.find j) := by
  intro s i N hi hc
  match fuel with
  | 0 => exact ⟨hc, fun j _ => rfl⟩
  | fuel + 1 =>
    simp only [unwrapStoreF]
    cases hf : s.find i with
    | none => exact ⟨hc, fun j _ => rfl⟩
    | some n =>
      have hmem := find_mem s i n hf
      have hkids : ∀ j ∈ n.kids, N ≤ j := hc (i, n) hmem hi
      have hrec := unwrapWorkS_frame fuel s n.text [] n.kids N
        (fun j hj => absurd hj (List.not_mem_nil j)) hkids hc
      refine ⟨?_, ?_⟩
      · exact closedAbove_set _ N i _ hrec.1 hrec.2.1
      · intro j hj
        rw [find_set_ne _ i j _ (Nat.ne_of_lt (Nat.lt_of_lt_of_le hj hi))]
        exact hrec.2.2 j hj

theorem unwrapWorkS_frame (fuel : Nat) : ∀ (s : Store) (pt : Option String)
    (acc l : List Nat) (N : Nat),
    (∀ j ∈ acc, N ≤ j) → (∀ j ∈ l, N ≤ j) → ClosedAbove s N →
    ClosedAbove (unwrapWorkS fuel s pt acc l).1 N ∧
    (∀ j ∈ (unwrapWorkS fuel s pt acc l).2.2, N ≤ j) ∧
    (∀ j, j < N → (unwrapWorkS fuel s pt acc l).1.find j = s.find j) := by
  intro s pt acc l N hacc hl hc
  match fuel with
  | 0 =>
    refine ⟨hc, ?_, fun j _ => rfl⟩
    intro j hj
    have hj2 : j ∈ acc ++ l := hj
    rcases List.mem_append.mp hj2 with hj3 | hj3
    · exact hacc j hj3
    · exact hl j hj3
  | fuel + 1 =>
    match l with
    | [] => exact ⟨hc, fun j hj => hacc j hj, fun j _ => rfl⟩
    | k :: rest =>
      have hk : N ≤ k := hl k (List.mem_cons_self k rest)
      have hrest : ∀ j ∈ rest, N ≤ j :=
        fun j hj => hl j (List.mem_cons_of_mem k hj)
      have hacck : ∀ j ∈ acc ++ [k], N ≤ j := by
        intro j hj
        rcases List.mem_append.mp hj with hj2 | hj2
        · exact hacc j hj2
        · rw [List.mem_singleton] at hj2; subst hj2; exact hk
      simp only [unwrapWorkS]
      cases hf : s.find k with
      | none => exact unwrapWorkS_frame fuel s pt (acc ++ [k]) rest N hacck hrest hc
      | some cn =>
        simp only []
        have hcm := find_mem s k cn hf
        have hckids : ∀ j ∈ cn.kids, N ≤ j := hc (k, cn) hcm hk
        by_cases hnt : isNTNode cn = true
        · rw [if_pos hnt]
          by_cases hke : cn.kids.isEmpty = true
          · rw [if_pos hke]
            cases hct : cn.tail with
            | none => exact unwrapWorkS_frame fuel s pt acc rest N hacc hrest hc
            | some t =>
              simp only []
              by_cases ht : t ≠ ""
              · rw [if_pos ht]
                by_cases hae : acc.isEmpty = true
                · rw [if_pos hae]
                  exact unwrapWorkS_frame fuel s (addTailTo pt t) acc rest N
                    hacc hrest hc
                · rw [if_neg hae]
                  cases hgl : acc.getLast? with
                  | none => exact unwrapWorkS_frame fuel s pt acc rest N hacc hrest hc
                  | some li =>
                    simp only []
                    have hli : N ≤ li := hacc li (List.mem_of_mem_getLast? hgl)
                    cases hfl : s.find li with
                    | none => exact unwrapWorkS_frame fuel s pt acc rest N hacc hrest hc
                    | some ln =>
                      simp only []
                      have hlm := find_mem s li ln hfl
                      have hlk : ∀ j ∈ ln.kids, N ≤ j := hc (li, ln) hlm hli
                      have hset : ClosedAbove
                          (s.set li { ln with tail := addTailTo ln.tail t }) N :=
                        closedAbove_set s N li _ hc hlk
                      have hrec := unwrapWorkS_frame fuel
                        (s.set li { ln with tail := addTailTo ln.tail t })
                        pt acc rest N hacc hrest hset
                      refine ⟨hrec.1, hrec.2.1, ?_⟩
                      intro j hj
                      rw [hrec.2.2 j hj, find_set_ne s li j _
                        (Nat.ne_of_lt (Nat.lt_of_lt_of_le hj hli))]
              · rw [if_neg ht]
                exact unwrapWorkS_frame fuel s pt acc rest N hacc hrest hc
          · rw [if_neg hke]
            have hboth : ∀ j ∈ cn.kids ++ rest, N ≤ j := by
              intro j hj
              rcases List.mem_append.mp hj with hj2 | hj2
              · exact hckids j hj2
              · exact hrest j hj2
            cases hct : cn.tail with
            | none =>
              exact unwrapWorkS_frame fuel s pt acc (cn.kids ++ rest) N hacc hboth hc
            | some t =>
              simp only []
              by_cases ht : t ≠ ""
              · rw [if_pos ht]
                cases hgl : cn.kids.getLast? with
                | none =>
                  exact unwrapWorkS_frame fuel s pt acc (cn.kids ++ rest) N hacc hboth hc
                | some lk =>
                  simp only []
                  have hlk : N ≤ lk := hckids lk (List.mem_of_mem_getLast? hgl)
                  cases hfl : s.find lk with
                  | none =>
                    exact unwrapWorkS_frame fuel s pt acc (cn.kids ++ rest) N hacc hboth hc
                  | some lkn =>
                    simp only []
                    have hlm := find_mem s lk lkn hfl
                    have hlkk : ∀ j ∈ lkn.kids, N ≤ j := hc (lk, lkn) hlm hlk
                    have hset : ClosedAbove
                        (s.set lk { lkn with tail := addTailTo lkn.tail t }) N :=
                      closedAbove_set s N lk _ hc hlkk
                    have hrec := unwrapWorkS_frame fuel
                      (s.set lk { lkn with tail := addTailTo lkn.tail t })
                      pt acc (cn.kids ++ rest) N hacc hboth hset
                    refine ⟨hrec.1, hrec.2.1, ?_⟩
                    intro j hj
                    rw [hrec.2.2 j hj, find_set_ne s lk j _
                      (Nat.ne_of_lt (Nat.lt_of_lt_of_le hj hlk))]
              · rw [if_neg ht]
                exact unwrapWorkS_frame fuel s pt acc (cn.kids ++ rest) N
                  hacc hboth hc
        · rw [if_neg hnt]
          have hs := unwrapStoreF_frame fuel s k N hk hc
          have hrec := unwrapWorkS_frame fuel (unwrapStoreF fuel s k) pt
            (acc ++ [k]) rest N hacck hrest hs.1
          refine ⟨hrec.1, hrec.2.1, ?_⟩
          intro j hj
          rw [hrec.2.2 j hj, hs.2 j hj]

end

mutual

theorem readTree_congr (fuel : Nat) : ∀ (s s2 : Store) (N : Nat),
    (∀ j, j < N → s2.find j = s.find j) → ClosedBelow s N →
    ∀ i, i < N → readTree fuel s2 i = readTree fuel s i := by
  intro s s2 N hfr hcb i hi
  match fuel with
  | 0 => rfl
  | fuel + 1 =>
    unfold readTree
    rw [hfr i hi]
    cases hf : s.find i with
    | none => rfl
    | some n =>
      simp only []
      have hm := find_mem s i n hf
      have hk : ∀ j ∈ n.kids, j < N := hcb (i, n) hm hi
      rw [readKids_congr fuel s s2 N hfr hcb n.kids hk]

theorem readKids_congr (fuel : Nat) : ∀ (s s2 : Store) (N : Nat),
    (∀ j, j < N → s2.find j = s.find j) → ClosedBelow s N →
    ∀ l, (∀ j ∈ l, j < N) → readKids fuel s2 l = readKids fuel s l := by
  intro s s2 N hfr hcb l hl
  match fuel with
  | 0 => rfl
  | fuel + 1 =>
    match l with
    | [] => rfl
    | k :: rest =>
      have hk : k < N := hl k (List.mem_cons_self k rest)
      unfold readKids
      rw [readTree_congr fuel s s2 N hfr hcb k hk, hfr k hk,
        readKids_congr fuel s s2 N hfr hcb rest
          (fun j hj => hl j (List.mem_cons_of_mem k hj))]

end

/-- Claim C9 (main statement): claim extraction never mutates the parsed
input document.  In the store semantics, for a well-formed arena whose
pre-existing elements reference only pre-existing children, every binding
present before the translated-text extraction is unchanged by it, and
materializing any pre-existing element yields a structurally identical
subtree before and after the call: the extraction operates only on the
deep copy it allocates above the watermark. -/
theorem extract_translated_frame (s : Store) (i : Nat)
    (hwf : StoreWF s)
    (hcl : ClosedBelow s s.nextId) :
    (∀ j, j < s.nextId → (extractTranslatedSt s i).2.find j = s.find j) ∧
    (∀ fuel j, j < s.nextId →
      readTree fuel (extractTranslatedSt s i).2 j = readTree fuel s j) := by
  have hvac : ClosedAbove s s.nextId := by
    intro p hp hN
    exact absurd (hwf p hp) (Nat.not_lt.mpr hN)
  have hframe : ∀ j, j < s.nextId →
      (extractTranslatedSt s i).2.find j = s.find j := by
    intro j hj
    have hchain : ∀ (h0 : Html) (tl : Option String),
        (unwrapStoreF
          (storeFuel (stripSrcStore (storeFuel (allocTree s h0 tl).1)
            (allocTree s h0 tl).1 (allocTree s h0 tl).2))
          (stripSrcStore (storeFuel (allocTree s h0 tl).1)
            (allocTree s h0 tl).1 (allocTree s h0 tl).2)
          (allocTree s h0 tl).2).find j = s.find j := by
      intro h0 tl
      have h1 := allocTree_spec h0 s tl s.nextId (Nat.le_refl _) hvac
      have h2 := stripSrcStore_frame (storeFuel (allocTree s h0 tl).1)
        (allocTree s h0 tl).1 (allocTree s h0 tl).2 s.nextId h1.2.1 h1.2.2.1
      have h3 := unwrapStoreF_frame
        (storeFuel (stripSrcStore (storeFuel (allocTree s h0 tl).1)
          (allocTree s h0 tl).1 (allocTree s h0 tl).2))
        (stripSrcStore (storeFuel (allocTree s h0 tl).1)
          (allocTree s h0 tl).1 (allocTree s h0 tl).2)
        (allocTree s h0 tl).2 s.nextId h1.2.1 h2.1
      exact ((h3.2 j hj).trans (h2.2 j hj)).trans (h1.2.2.2 j hj)
    simp only [extractTranslatedSt]
    cases hr : readTree (storeFuel s) s i with
    | none => rfl
    | some h0 =>
      simp only []
      cases hfi : s.find i with
      | none =>
        split
        · exact hchain h0 Option.none
        · exact hchain h0 Option.none
      | some n =>
        split
        · exact hchain h0 n.tail
        · exact hchain h0 n.tail
  refine ⟨hframe, ?_⟩
  intro fuel j hj
  exact readTree_congr fuel s (extractTranslatedSt s i).2 s.nextId hframe hcl j hj

/-- Witness for the C9 frame theorem at a one-element arena. -/
theorem extract_translated_frame_witness :
    StoreWF (Store.mk [(0, Node.mk "div" [] (some "x") Option.none [])] 1) ∧
    ClosedBelow (Store.mk [(0, Node.mk "div" [] (some "x") Option.none [])] 1)
      (Store.mk [(0, Node.mk "div" [] (some "x") Option.none [])] 1).nextId ∧
    ((∀ j, j < (Store.mk [(0, Node.mk "div" [] (some "x") Option.none [])] 1).nextId →
        (extractTranslatedSt
          (Store.mk [(0, Node.mk "div" [] (some "x") Option.none [])] 1) 0).2.find j =
          (Store.mk [(0, Node.mk "div" [] (some "x") Option.none [])] 1).find j) ∧
      (∀ fuel j,
        j < (Store.mk [(0, Node.mk "div" [] (some "x") Option.none [])] 1).nextId →
        readTree fuel (extractTranslatedSt
          (Store.mk [(0, Node.mk "div" [] (some "x") Option.none [])] 1) 0).2 j =
          readTree fuel
            (Store.mk [(0, Node.mk "div" [] (some "x") Option.none [])] 1) j)) :=
  ⟨by unfold StoreWF; decide, by unfold ClosedBelow; decide,
    extract_translated_frame
      (Store.mk [(0, Node.mk "div" [] (some "x") Option.none [])] 1) 0
      (by unfold StoreWF; decide) (by unfold ClosedBelow; decide)⟩

end IpTools
